import Mathlib

/-!
# iotagent-json: message ingestion and attribute extraction

A shallow embedding of `lib/commonBindings.js` (payload decoding, type
inference, attribute extraction, topic routing) together with theorems about
its behaviour.

JavaScript values are embedded as `JVal`; a thrown `TypeError` is an
`Except.error`.  Strings are Lean strings (exact for text of the Basic
Multilingual Plane, where JavaScript's UTF-16 indices and Unicode scalar values
coincide).  Calls to the logger are outside the embedding; only the error
reports of the handlers appear, as events.  The arguments of those calls are
evaluated by the module itself: the one that can throw on a decoded payload,
the template literal of source line 374, is part of `processMessageForDevice`;
the others (`JSON.stringify` of parsed JSON, template literals over strings and
the message buffer) complete on every input.
-/

namespace CommonBindings

/-! ## JavaScript values -/

/-- JavaScript values reachable from a JSON payload, plus `undefined` (the
result of reading a property that is not there).  An object is its list of own
properties in enumeration order. -/
inductive JVal where
  | undefined : JVal
  | null : JVal
  | bool (b : Bool) : JVal
  | num (q : ℚ) : JVal
  | str (s : String) : JVal
  | arr (xs : List JVal) : JVal
  | obj (kvs : List (String × JVal)) : JVal
  deriving Inhabited

/-- The exception thrown by the JavaScript run time on an invalid operation. -/
inductive JSError where
  | typeError : JSError
  deriving DecidableEq, Repr, Inhabited

namespace JVal

/-- JavaScript truthiness (`ToBoolean`). -/
def truthy : JVal → Bool
  | undefined => false
  | null => false
  | bool b => b
  | num q => decide (q ≠ 0)
  | str s => decide (s ≠ "")
  | arr _ => true
  | obj _ => true

/-- Pairs each element of a list with its index rendered in decimal, starting
at `i`: the enumerable index properties of an array or a string. -/
def indexed : Nat → List JVal → List (String × JVal)
  | _, [] => []
  | i, x :: xs => (toString i, x) :: indexed (i + 1) xs

/-- Own enumerable properties of a value, in `for ... in` order.  Arrays and
strings expose their indices; other primitives expose nothing. -/
def ownEntries : JVal → List (String × JVal)
  | obj kvs => kvs
  | arr xs => indexed 0 xs
  | str s => indexed 0 (s.data.map fun ch => str (String.singleton ch))
  | _ => []

/-- Keys visited by `for (const k in v)`; iterating `null` or `undefined`
visits nothing. -/
def ownKeys (v : JVal) : List String :=
  (ownEntries v).map Prod.fst

/-- First value stored under `k` in a property list, `undefined` when there is
none. -/
def lookup (k : String) : List (String × JVal) → JVal
  | [] => undefined
  | (k', v) :: rest => if k' = k then v else lookup k rest

/-- The value of `v[k]` for a `v` other than `null` and `undefined`, for the
names the module reads: own enumerable keys and the fixed names `type`,
`value`, `object`, `metadata`, `entities`, none of which lives on a built-in
prototype. -/
def get (v : JVal) (k : String) : JVal :=
  lookup k (ownEntries v)

/-- Property read `v[k]` / `v.k`.  Reading from `null` or `undefined` throws. -/
def getProp (v : JVal) (k : String) : Except JSError JVal :=
  match v with
  | undefined => .error .typeError
  | null => .error .typeError
  | _ => .ok (v.get k)

/-- Method call `v.hasOwnProperty(k)`.  It throws on `null`/`undefined`, and
also when `v` has an own property named `hasOwnProperty`: that property
shadows the inherited method and a JSON value is never callable.  Arrays and
strings additionally own the non-enumerable `length`. -/
def hasOwnProperty (v : JVal) (k : String) : Except JSError Bool :=
  match v with
  | undefined => .error .typeError
  | null => .error .typeError
  | obj kvs =>
    if "hasOwnProperty" ∈ kvs.map Prod.fst then .error .typeError
    else .ok (decide (k ∈ kvs.map Prod.fst))
  | arr xs => .ok (decide (k ∈ ownKeys (arr xs)) || decide (k = "length"))
  | str s => .ok (decide (k ∈ ownKeys (str s)) || decide (k = "length"))
  | _ => .ok false

/-- The elements visited by `for (const e of v)`: the items of an array, the
characters of a string; any other value is not iterable. -/
def iterate : JVal → Except JSError (List JVal)
  | arr xs => .ok xs
  | str s => .ok (s.data.map fun ch => str (String.singleton ch))
  | _ => .error .typeError

mutual
/-- Whether the string conversion of a value (`ToString`, as a template literal
applies it) completes; it throws a `TypeError` otherwise.  An object is
converted by its `toString` method: an own property `toString` hides the
inherited one and, a JSON value never being callable, leaves only `valueOf`,
which returns no primitive.  An array is converted by joining the conversions
of its elements. -/
def convertsToString : JVal → Bool
  | obj kvs => !decide ("toString" ∈ kvs.map Prod.fst)
  | arr xs => allConvertToString xs
  | _ => true
/-- Whether the string conversion of every element of an array completes. -/
def allConvertToString : List JVal → Bool
  | [] => true
  | x :: xs => x.convertsToString && allConvertToString xs
end

end JVal

/-- The method `String.prototype.toLowerCase`, here on ASCII letters.  The
module only compares its result with ASCII words free of the letter `k` (the
dialect tags, `@context`, `type`, `value`, `object`, `property`, `geoproperty`,
`relationship`), and on those comparisons the ASCII mapping and the Unicode
mapping agree. -/
def toLowerCase (s : String) : String :=
  String.mk (s.data.map Char.toLower)

/-- Call `v.toLowerCase()` on an arbitrary value: only strings have the
method. -/
def JVal.toLowerCase : JVal → Except JSError String
  | .str s => .ok (CommonBindings.toLowerCase s)
  | _ => .error .typeError

/-! ## Collaborating modules -/

/-- The values of `lib/constants.js` that the module reads. -/
structure Constants where
  TIMESTAMP_ATTRIBUTE : String
  TIMESTAMP_TYPE_NGSI2 : String
  DEFAULT_ATTRIBUTE_TYPE : String
  PAYLOAD_NGSIv2 : String
  PAYLOAD_NGSILD : String

/-- One entry of `device.active`. -/
structure ActiveAttribute where
  name : String
  type : JVal

/-- The fields of a device descriptor that the module reads.  `active` and
`payloadType` may be missing. -/
structure Device where
  type : JVal
  active : Option (List ActiveAttribute)
  payloadType : Option String

/-! ## guessType -/

/-- The loop of `guessType` over `device.active`: type of the first entry whose
name is the requested one. -/
def findActive (attrName : String) : List ActiveAttribute → Option JVal
  | [] => none
  | a :: rest => if a.name = attrName then some a.type else findActive attrName rest

/-- Source function `guessType(attribute, device, measureType)`. -/
def guessType (c : Constants) (attrName : String) (device : Device) (measureType : JVal) : JVal :=
  match (device.active.bind (findActive attrName)) with
  | some t => t
  | none =>
    if attrName = c.TIMESTAMP_ATTRIBUTE then .str c.TIMESTAMP_TYPE_NGSI2
    else if measureType.truthy then measureType
    else .str c.DEFAULT_ATTRIBUTE_TYPE

/-! ## extractAttributes -/

/-- An attribute record `{name, type, value, metadata}` as built by the module.
A field holds `undefined` when the property was never set or was set to
`undefined`; the two read the same and serialise the same. -/
structure AttributeRecord where
  name : String
  type : JVal := .undefined
  value : JVal := .undefined
  metadata : JVal := .undefined

/-- An element of the array returned by `extractAttributes`: an attribute
record, or the array of records of one entity. -/
inductive Item where
  | record (r : AttributeRecord) : Item
  | group (rs : List AttributeRecord) : Item

/-- Assignment `o[k] = v` on the own properties of a plain object.  Assigning
to `__proto__` goes to the inherited setter and creates no own property. -/
def setProp (k : String) (v : JVal) (kvs : List (String × JVal)) : List (String × JVal) :=
  if k = "__proto__" then kvs
  else if k ∈ kvs.map Prod.fst then kvs.map fun p => if p.1 = k then (k, v) else p
  else kvs ++ [(k, v)]

/-- The own properties of `ent.metadata` once `if (!ent.metadata) {
ent.metadata = {}; }` has run: those of the object it already was, or none. -/
def metadataProps : JVal → List (String × JVal)
  | .obj kvs => kvs
  | _ => []

/-- The loop `for (const key in entity[k])` of the NGSI-LD branch, folding the
fields other than `type`, `value`, `object` into `ent.metadata`.  `field` is
`entity[k]`, `metadata` the current `ent.metadata`. -/
def metadataLoop (field : JVal) : List String → JVal → JVal
  | [], metadata => metadata
  | key :: keys, metadata =>
    if toLowerCase key ∈ ["type", "value", "object"] then metadataLoop field keys metadata
    else
      metadataLoop field keys
        (.obj (setProp key (.obj [("value", field.get key)]) (metadataProps metadata)))

/-- The record pushed for a key other than `id` and `type` when the dialect is
NGSIv2 (source lines 127-132). -/
def ngsiv2Record (c : Constants) (device : Device) (k : String) (field : JVal) :
    Except JSError AttributeRecord := do
  let type ← field.getProp "type"
  let value ← field.getProp "value"
  let metadata ← field.getProp "metadata"
  pure { name := k, type := guessType c k device type, value := value,
         metadata := if metadata.truthy then metadata else .undefined }

/-- The record `ent` pushed for a key other than `id` and `type` when the
dialect is NGSI-LD (source lines 134-159). -/
def ngsildRecord (c : Constants) (device : Device) (k : String) (field : JVal) :
    Except JSError AttributeRecord := do
  let ent : AttributeRecord := { name := k }
  if toLowerCase k = "@context" then
    pure { ent with type := .str "@context", value := field }
  else
    let type ← field.getProp "type"
    let ent ← (if type.truthy then do
        let ent := { ent with type := guessType c k device type }
        let lower ← type.toLowerCase
        if lower ∈ ["property", "geoproperty"] then
          pure { ent with value := ← field.getProp "value" }
        else if lower = "relationship" then
          pure { ent with value := ← field.getProp "object" }
        else pure ent
      else pure ent)
    pure { ent with metadata := metadataLoop field field.ownKeys ent.metadata }

/-- The loop `for (const k in entity)` of the context dialects (source lines
115-163); `lowerType` is `payloadType.toLowerCase()` and `valuesEntity` the
records pushed so far. -/
def entityLoop (c : Constants) (device : Device) (lowerType : String) (entity : JVal) :
    List String → List AttributeRecord → Except JSError (List AttributeRecord)
  | [], valuesEntity => pure valuesEntity
  | k :: ks, valuesEntity => do
    if ← entity.hasOwnProperty k then
      if k ∈ ["id", "type"] then
        let value ← entity.getProp k
        entityLoop c device lowerType entity ks
          (valuesEntity ++ [{ name := k, type := guessType c k device .null, value := value }])
      else if lowerType = c.PAYLOAD_NGSIv2 then
        let r ← ngsiv2Record c device k (← entity.getProp k)
        entityLoop c device lowerType entity ks (valuesEntity ++ [r])
      else if lowerType = c.PAYLOAD_NGSILD then
        let r ← ngsildRecord c device k (← entity.getProp k)
        entityLoop c device lowerType entity ks (valuesEntity ++ [r])
      else entityLoop c device lowerType entity ks valuesEntity
    else entityLoop c device lowerType entity ks valuesEntity

/-- The loop `for (const entity of arrayEntities)` (source lines 113-169);
`count` is `arrayEntities.length` and `values` the array built so far. -/
def entitiesLoop (c : Constants) (device : Device) (lowerType : String) (count : Nat) :
    List JVal → List Item → Except JSError (List Item)
  | [], values => pure values
  | entity :: rest, values => do
    let valuesEntity ← entityLoop c device lowerType entity entity.ownKeys []
    if count > 1 then
      entitiesLoop c device lowerType count rest (values ++ [Item.group valuesEntity])
    else
      entitiesLoop c device lowerType count rest (valuesEntity.map Item.record)

/-- The loop `for (const k in current)` of the plain dialect (source lines
171-179). -/
def plainLoop (c : Constants) (device : Device) (current : JVal) :
    List String → List Item → Except JSError (List Item)
  | [], values => pure values
  | k :: ks, values => do
    if ← current.hasOwnProperty k then
      let value ← current.getProp k
      plainLoop c device current ks
        (values ++ [Item.record { name := k, type := guessType c k device .null, value := value }])
    else plainLoop c device current ks values

/-- The test `payloadType && [PAYLOAD_NGSIv2, PAYLOAD_NGSILD].includes(
payloadType.toLowerCase())` of source line 106. -/
def isContextDialect (c : Constants) : Option String → Bool
  | none => false
  | some p => decide (p ≠ "") &&
      decide (toLowerCase p ∈ [c.PAYLOAD_NGSIv2, c.PAYLOAD_NGSILD])

/-- Source function `extractAttributes(device, current, payloadType)`. -/
def extractAttributes (c : Constants) (device : Device) (current : JVal)
    (payloadType : Option String) : Except JSError (List Item) :=
  if isContextDialect c payloadType then do
    let lowerType := toLowerCase (payloadType.getD "")
    let arrayEntities ← (do
      if ← current.hasOwnProperty "actionType" then
        if ← current.hasOwnProperty "entities" then current.getProp "entities"
        else pure (JVal.arr [current])
      else pure (JVal.arr [current]))
    let entities ← arrayEntities.iterate
    entitiesLoop c device lowerType entities.length entities []
  else plainLoop c device current current.ownKeys []

/-! ## parseMessage -/

/-- A message body: the bytes of a `Buffer`. -/
abbrev Buffer := List (Fin 256)

/-- The built-in functions `parseMessage` relies on: `Buffer.prototype.toString`
with the default encoding, and `JSON.parse`, which yields `none` where the
JavaScript function throws a `SyntaxError`. -/
structure Builtins where
  bufferToString : Buffer → String
  jsonParse : String → Option JVal

/-- One hexadecimal digit, lower case, as Node prints it. -/
def hexDigit (n : Nat) : Char :=
  if n < 10 then Char.ofNat (48 + n) else Char.ofNat (87 + n)

/-- The result of `message.toString('hex')`: two lower-case hexadecimal digits
per byte, in order. -/
def toHex : Buffer → List Char
  | [] => []
  | b :: bs => hexDigit (b.val / 16) :: hexDigit (b.val % 16) :: toHex bs

/-- Source function `parseMessage(message)`. -/
def parseMessage (js : Builtins) (message : Buffer) : List JVal :=
  let stringMessage := js.bufferToString message
  let parsedMessage :=
    match js.jsonParse stringMessage with
    | some v => v
    | none => JVal.str (String.mk (toHex message))
  match parsedMessage with
  | .arr xs => xs
  | v => [v]

/-! ## messageHandler -/

/-- The method `String.prototype.split` with the separator `/`, on the
characters of the string. -/
def splitSlash : List Char → List (List Char)
  | [] => [[]]
  | ch :: rest =>
    if ch = '/' then [] :: splitSlash rest
    else
      match splitSlash rest with
      | [] => [[ch]]
      | seg :: segs => (ch :: seg) :: segs

/-- The expression `typeof x === 'object'`. -/
def typeofObject : JVal → Bool
  | .obj _ => true
  | .arr _ => true
  | .null => true
  | _ => false

/-- The handler `processMessageForDevice` calls, with the arguments it passes;
`formatError` is the final branch, which only logs. -/
inductive Flow where
  | manageConfigurationRequest (deviceId : Option String) (device : Device)
      (objMessage : List JVal) : Flow
  | singleMeasure (deviceId : Option String) (attrName : String) (device : Device)
      (parsedMessage : List JVal) : Flow
  | multipleMeasures (deviceId : Option String) (device : Device)
      (messageObj : List JVal) : Flow
  | formatError : Flow

/-- What `messageHandler` does once the device lookup has answered: nothing
beyond a warning when the device is unknown, one flow otherwise, unless
`processMessageForDevice` throws before it calls a handler. -/
inductive Outcome where
  | deviceNotFound : Outcome
  | processed (flow : Flow) : Outcome
  | thrown (e : JSError) : Outcome

/-- The inner function `processMessageForDevice(device)` of `messageHandler`
(source lines 363-389), with the captured variables as arguments.  A missing
array element (`undefined`) is `none`; `attribute` is truthy when it is a
non-empty string; `parsedMessage` is an array, hence truthy.  On the
single-measure branch the template literal of source line 374 converts
`parsedMessage[0]` to a string before `singleMeasure` is called, and the
function throws when that conversion does. -/
def processMessageForDevice (topicInformation : List String) (deviceId : Option String)
    (attrName : Option String) (parsedMessage : List JVal) (device : Device) :
    Except JSError Flow :=
  if topicInformation.get? 3 = some "configuration" ∧
      topicInformation.get? 4 = some "commands" then
    .ok (Flow.manageConfigurationRequest deviceId device parsedMessage)
  else
    match attrName.filter (fun a => a ≠ "") with
    | some a =>
      if (parsedMessage.head?.getD .undefined).convertsToString then
        .ok (Flow.singleMeasure deviceId a device parsedMessage)
      else .error .typeError
    | none =>
      if parsedMessage.all typeofObject then
        .ok (Flow.multipleMeasures deviceId device parsedMessage)
      else .ok Flow.formatError

/-- The array `topicInformation` of `messageHandler`: the topic, given a leading
`/` when it has none, split at `/`. -/
def topicSegments (topic : String) : List String :=
  let chars := if topic.data.head? ≠ some '/' then '/' :: topic.data else topic.data
  (splitSlash chars).map String.mk

/-- Source function `messageHandler(topic, message)`.  `retrieveDevice` is the
registry lookup `iotaUtils.retrieveDevice`, answering `none` when it reports an
error. -/
def messageHandler (js : Builtins) (retrieveDevice : Option String → Option Device)
    (topic : String) (message : Buffer) : Outcome :=
  let topicInformation := topicSegments topic
  let deviceId := topicInformation.get? 3
  let attrName := topicInformation.get? 5
  let parsedMessage := parseMessage js message
  match retrieveDevice deviceId with
  | none => Outcome.deviceNotFound
  | some device =>
    match processMessageForDevice topicInformation deviceId attrName parsedMessage device with
    | .ok flow => Outcome.processed flow
    | .error e => Outcome.thrown e

/-! ## Sample data for the worked examples -/

/-- Values for the constants: the timestamp attribute and its NGSIv2 type, the
default attribute type and the two context dialect tags. -/
def sampleConstants : Constants :=
  { TIMESTAMP_ATTRIBUTE := "TimeInstant"
    TIMESTAMP_TYPE_NGSI2 := "DateTime"
    DEFAULT_ATTRIBUTE_TYPE := "string"
    PAYLOAD_NGSIv2 := "ngsiv2"
    PAYLOAD_NGSILD := "ngsild" }

/-- A device that declares no active attributes and no dialect. -/
def bareDevice : Device :=
  { type := .str "Thing", active := none, payloadType := none }

/-- A device whose only active attribute is `temp`, of type `Number`. -/
def tempDevice : Device :=
  { type := .str "Thing", active := some [{ name := "temp", type := .str "Number" }],
    payloadType := none }

/-! ## Specification-side vocabulary -/

/-- A value whose own property `hasOwnProperty` hides the inherited method. -/
def shadowsHasOwnProperty : JVal → Prop
  | .obj kvs => "hasOwnProperty" ∈ kvs.map Prod.fst
  | _ => False

/-- The record the plain dialect emits for key `k` of `current`. -/
def plainRecord (c : Constants) (device : Device) (current : JVal) (k : String) :
    AttributeRecord :=
  { name := k, type := guessType c k device .null, value := current.get k }

/-- The record the NGSIv2 dialect emits for key `k` of `entity`: identity keys
are carried verbatim, any other key is unpacked, its metadata kept when it is
truthy. -/
def contextV2Record (c : Constants) (device : Device) (entity : JVal) (k : String) :
    AttributeRecord :=
  if k ∈ ["id", "type"] then
    { name := k, type := guessType c k device .null, value := entity.get k }
  else
    { name := k
      type := guessType c k device ((entity.get k).get "type")
      value := (entity.get k).get "value"
      metadata :=
        if ((entity.get k).get "metadata").truthy then (entity.get k).get "metadata"
        else .undefined }

/-- An envelope: a record with both an `actionType` and an `entities` key. -/
def isEnvelope (kvs : List (String × JVal)) : Prop :=
  "actionType" ∈ kvs.map Prod.fst ∧ "entities" ∈ kvs.map Prod.fst

/-- Value of a hexadecimal digit. -/
def hexValue (ch : Char) : Option Nat :=
  let n := ch.toNat
  if 48 ≤ n ∧ n ≤ 57 then some (n - 48)
  else if 97 ≤ n ∧ n ≤ 102 then some (n - 87)
  else none

/-- Reads a hexadecimal rendering back into bytes. -/
def fromHex : List Char → Option Buffer
  | [] => some []
  | [_] => none
  | hi :: lo :: rest =>
    match hexValue hi, hexValue lo, fromHex rest with
    | some h, some l, some bs =>
      if hlt : 16 * h + l < 256 then some (⟨16 * h + l, hlt⟩ :: bs) else none
    | _, _, _ => none

/-- A field name that the NGSI-LD branch keeps out of the metadata: `type`,
`value` or `object` in any letter case. -/
abbrev reservedField (f : String) : Prop :=
  toLowerCase f ∈ ["type", "value", "object"]

/-- A declared type the NGSI-LD branch can handle: falsy (no type declared) or
a string (anything else has no `toLowerCase` method). -/
def usableType (t : JVal) : Prop :=
  t.truthy = true → ∃ s, t = .str s

/-- The statement of C3 for one key `k` of an entity with properties `kvs` and
the record `r` emitted for it: when `k` is neither `id`, `type` nor a spelling
of `@context` and `entity[k]` is an object declaring the type `t`, the value of
`r` is `entity[k].value` for a property or geo-property and `entity[k].object`
for a relationship, and the metadata of `r` maps every field of `entity[k]`
that is not reserved to `{value: field}` and holds nothing else (other than a
field `__proto__`, about which nothing is said). -/
def typedKeyProperty (kvs : List (String × JVal)) (k : String) (r : AttributeRecord) : Prop :=
  ∀ fs t, k ∉ ["id", "type"] → toLowerCase k ≠ "@context" →
    JVal.lookup k kvs = .obj fs → JVal.lookup "type" fs = .str t → t ≠ "" →
    (toLowerCase t ∈ ["property", "geoproperty"] → r.value = JVal.lookup "value" fs) ∧
    (toLowerCase t = "relationship" → r.value = JVal.lookup "object" fs) ∧
    (∀ f, f ≠ "__proto__" →
      r.metadata.get f =
        if f ∈ fs.map Prod.fst ∧ ¬ reservedField f then .obj [("value", JVal.lookup f fs)]
        else .undefined) ∧
    (r.metadata = .undefined ↔ ∀ f ∈ fs.map Prod.fst, reservedField f)

/-- The NGSI-LD example of the specification: `{speed: {type: "Property",
value: 10, accuracy: 0.5}}`, as its properties. -/
def speedEntity : List (String × JVal) :=
  [("speed", .obj [("type", .str "Property"), ("value", .num 10), ("accuracy", .num (1 / 2))])]

/-- An envelope with two entities, `e1` and `e2`, each holding a temperature. -/
def twoEntities : List (String × JVal) :=
  [("actionType", .str "append"),
   ("entities", .arr [
      .obj [("id", .str "e1"), ("temp", .obj [("value", .num 21), ("type", .str "Number")])],
      .obj [("id", .str "e2"), ("temp", .obj [("value", .num 22), ("type", .str "Number")])]])]

/-- Built-ins for the worked examples: bytes are read as ASCII, and the parser
knows the JSON texts `21`, `[1,2]`, `{}` and `{"toString":1}` only. -/
def sampleBuiltins : Builtins :=
  { bufferToString := fun bytes => String.mk (bytes.map fun b => Char.ofNat b.val)
    jsonParse := fun text =>
      if text = "21" then some (.num 21)
      else if text = "[1,2]" then some (.arr [.num 1, .num 2])
      else if text = "{}" then some (.obj [])
      else if text = "\x7b\"toString\":1\x7d" then some (.obj [("toString", .num 1)])
      else none }

/-- The two bytes of the text `21`. -/
def message21 : Buffer := [50, 49]

/-- The bytes of the text `{"toString":1}`. -/
def messageToString : Buffer :=
  [123, 34, 116, 111, 83, 116, 114, 105, 110, 103, 34, 58, 49, 125]

/-! ## Update dispatch

The handlers hand their work to collaborators and return; what they do is
recorded as a list of events.  `backend j call` is the error value with which
the library completes the `j`-th update call of a handler (falsy on success);
the completion of a call is recorded right after the call, the module fixing no
order between completions.  Only error reports are recorded among the log
calls. -/

/-- An element of the `attributes` array passed to `iotAgentLib.update`: an
attribute record, or an array (of whatever `extractAttributes` returned). -/
inductive Measure where
  | record (r : AttributeRecord) : Measure
  | group (values : List Item) : Measure

/-- An element of `values` seen as an element of `attributesArray`. -/
def Item.toMeasure : Item → Measure
  | .record r => .record r
  | .group rs => .group (rs.map Item.record)

/-- The expression `Array.isArray(values[0]) ? values : [values]` of source
line 309. -/
def attributesArray (values : List Item) : List Measure :=
  match values with
  | Item.group _ :: _ => values.map Item.toMeasure
  | _ => [Measure.group values]

/-- The arguments of one call `iotAgentLib.update(entityName, entityType,
apiKey, attributes, device, callback)`, the callback aside. -/
structure UpdateCall where
  entityName : Option String
  entityType : JVal
  apiKey : String
  attributes : List Measure
  device : Device

/-- What a handler asks of its collaborators. -/
inductive Event where
  | update (call : UpdateCall) : Event
  | manageConfiguration (deviceId : Option String) (device : Device) (request : JVal) : Event
  | logError : Event
  | alarmRaise : Event
  | alarmRelease : Event
  | finishSouthBoundTransaction : Event

/-- The events of a handler, in order, and the exception it ended with, if
any. -/
structure Run where
  events : List Event
  thrown : Option JSError

/-- The update calls among some events. -/
def updatesOf (events : List Event) : List UpdateCall :=
  events.filterMap fun
    | .update call => some call
    | _ => none

/-- The number of transaction closes among some events. -/
def closesOf (events : List Event) : Nat :=
  (events.filter fun
    | .finishSouthBoundTransaction => true
    | _ => false).length

/-- The callback that `singleMeasure` passes to `iotAgentLib.update` (source
lines 268-287). -/
def singleMeasureCallback (error : JVal) : List Event :=
  if error.truthy then [.logError, .finishSouthBoundTransaction]
  else [.finishSouthBoundTransaction]

/-- Source function `singleMeasure(deviceId, attribute, device,
parsedMessage)`. -/
def singleMeasure (c : Constants) (backend : Nat → UpdateCall → JVal)
    (deviceId : Option String) (attrName : String) (device : Device)
    (parsedMessage : List JVal) : Run :=
  let values : List Measure :=
    [.record { name := attrName, type := guessType c attrName device .null,
               value := parsedMessage.head?.getD .undefined }]
  let call : UpdateCall := ⟨deviceId, device.type, "", values, device⟩
  ⟨.update call :: singleMeasureCallback (backend 0 call), none⟩

/-- The callback that `multipleMeasures` passes to `iotAgentLib.update` (source
lines 314-327). -/
def multipleMeasuresCallback (error : JVal) : List Event :=
  if error.truthy then [.logError, .finishSouthBoundTransaction]
  else [.finishSouthBoundTransaction]

/-- The loop of `multipleMeasures` (source lines 305-328) from index `j` on;
`events` is what has happened so far. -/
def multipleMeasuresLoop (c : Constants) (backend : Nat → UpdateCall → JVal)
    (deviceId : Option String) (device : Device) : Nat → List JVal → List Event → Run
  | _, [], events => ⟨events, none⟩
  | j, measure :: rest, events =>
    match extractAttributes c device measure device.payloadType with
    | .error e => ⟨events, some e⟩
    | .ok values =>
      let call : UpdateCall := ⟨deviceId, device.type, "", attributesArray values, device⟩
      multipleMeasuresLoop c backend deviceId device (j + 1) rest
        (events ++ .update call :: multipleMeasuresCallback (backend j call))

/-- Source function `multipleMeasures(deviceId, device, messageObj)`. -/
def multipleMeasures (c : Constants) (backend : Nat → UpdateCall → JVal)
    (deviceId : Option String) (device : Device) (messageObj : List JVal) : Run :=
  multipleMeasuresLoop c backend deviceId device 0 messageObj []

/-- The callback that `manageConfigurationRequest` passes to
`iotaUtils.manageConfiguration` (source lines 220-228). -/
def manageConfigurationCallback (error : JVal) : List Event :=
  if error.truthy then [.alarmRaise, .finishSouthBoundTransaction]
  else [.alarmRelease, .finishSouthBoundTransaction]

/-- The loop of `manageConfigurationRequest` (source lines 214-230) from index
`i` on; `configure i` is the error value with which the `i`-th configuration
request completes. -/
def manageConfigurationLoop (configure : Nat → JVal) (deviceId : Option String)
    (device : Device) : Nat → List JVal → List Event
  | _, [] => []
  | i, request :: rest =>
    .manageConfiguration deviceId device request ::
      (manageConfigurationCallback (configure i) ++
        manageConfigurationLoop configure deviceId device (i + 1) rest)

/-- Source function `manageConfigurationRequest(deviceId, device,
objMessage)`. -/
def manageConfigurationRequest (configure : Nat → JVal) (deviceId : Option String)
    (device : Device) (objMessage : List JVal) : Run :=
  ⟨manageConfigurationLoop configure deviceId device 0 objMessage, none⟩

/-- The body of the branch of `processMessageForDevice` that was selected; the
last branch only reports the format error. -/
def Flow.run (c : Constants) (backend : Nat → UpdateCall → JVal) (configure : Nat → JVal) :
    Flow → Run
  | .manageConfigurationRequest deviceId device objMessage =>
    CommonBindings.manageConfigurationRequest configure deviceId device objMessage
  | .singleMeasure deviceId attrName device parsedMessage =>
    CommonBindings.singleMeasure c backend deviceId attrName device parsedMessage
  | .multipleMeasures deviceId device messageObj =>
    CommonBindings.multipleMeasures c backend deviceId device messageObj
  | .formatError => ⟨[.logError], none⟩

/-- The first statement of `messageHandler`: the topic, given a leading `/`
when it has none. -/
def normalizeTopic (topic : String) : String :=
  if topic.data.head? ≠ some '/' then "/" ++ topic else topic

/-- A structured element of a decoded payload: an object or an array. -/
def isStructured : JVal → Prop
  | .obj _ => True
  | .arr _ => True
  | _ => False

/-- A device of the NGSIv2 dialect without active attributes. -/
def ngsiv2Device : Device :=
  { type := .str "Thing", active := none, payloadType := some "ngsiv2" }

/-- The update call that `multipleMeasures` issues for a payload element whose
extraction returned `values`. -/
def measureCall (deviceId : Option String) (device : Device) (values : List Item) :
    UpdateCall :=
  ⟨deviceId, device.type, "", attributesArray values, device⟩

/-- A backend that fails the update of index 1 and completes the others. -/
def secondFails : Nat → UpdateCall → JVal :=
  fun j _ => if j = 1 then .str "unreachable" else .null

/-- The statement of C15 for one key `k` of an entity with properties `kvs` and
the record `r` emitted for it under the dialect `payloadType`: `r` is named
`k`; under the plain dialect its value is `entity[k]`; under NGSIv2, for a key
other than `id` and `type`, it is `entity[k].value`; under NGSI-LD, for a key
other than `id`, `type` and the spellings of `@context` whose object declares
the type `property` or `geoproperty`, it is `entity[k].value`. -/
def carriesValue (c : Constants) (payloadType : Option String)
    (kvs : List (String × JVal)) (k : String) (r : AttributeRecord) : Prop :=
  r.name = k ∧
  (isContextDialect c payloadType = false → r.value = JVal.lookup k kvs) ∧
  (∀ p, payloadType = some p → p ≠ "" → toLowerCase p = c.PAYLOAD_NGSIv2 →
    k ∉ ["id", "type"] → r.value = (JVal.lookup k kvs).get "value") ∧
  (∀ p, payloadType = some p → p ≠ "" → toLowerCase p ≠ c.PAYLOAD_NGSIv2 →
    toLowerCase p = c.PAYLOAD_NGSILD → k ∉ ["id", "type"] → toLowerCase k ≠ "@context" →
    ∀ fs t, JVal.lookup k kvs = .obj fs → JVal.lookup "type" fs = .str t →
      toLowerCase t ∈ ["property", "geoproperty"] → r.value = JVal.lookup "value" fs)

/-- The entities that C15 ranges over under a context dialect: no envelope, and
every key other than `id` and `type` holds an object whose `type` is a string
or falsy, a spelling of `@context` being exempt under NGSI-LD. -/
def plainlyTyped (c : Constants) (p : String) (kvs : List (String × JVal)) : Prop :=
  ¬ isEnvelope kvs ∧
  ∀ k ∈ kvs.map Prod.fst, k ∉ ["id", "type"] →
    (∃ fs, JVal.lookup k kvs = .obj fs ∧ usableType (JVal.lookup "type" fs)) ∨
    (toLowerCase k = "@context" ∧ toLowerCase p ≠ c.PAYLOAD_NGSIv2)

/-- The entities a record with properties `kvs` holds under the dialect
`payloadType`: the elements of `entities` for an envelope under a context
dialect, the record itself in every other case. -/
def holdsEntities (c : Constants) (payloadType : Option String)
    (kvs : List (String × JVal)) (ents : List JVal) : Prop :=
  (isContextDialect c payloadType = true ∧ isEnvelope kvs ∧
      JVal.lookup "entities" kvs = .arr ents) ∨
    (¬ (isContextDialect c payloadType = true ∧ isEnvelope kvs) ∧ ents = [.obj kvs])

/-- The records of one entity under the dialect `payloadType`: what the loop
over its keys emits. -/
def entityRecords (c : Constants) (device : Device) (payloadType : Option String)
    (entity : JVal) (rs : List AttributeRecord) : Prop :=
  if isContextDialect c payloadType = true then
    entityLoop c device (toLowerCase (payloadType.getD "")) entity entity.ownKeys [] = .ok rs
  else plainLoop c device entity entity.ownKeys [] = .ok (rs.map Item.record)

/-- One inner list of the normalised result: the records of one entity. -/
def innerList (rs : List AttributeRecord) : Measure :=
  .group (rs.map Item.record)

/-! ## Basic facts about property access -/

theorem hasOwnProperty_ownKeys (v : JVal) (h : ¬ shadowsHasOwnProperty v) (k : String)
    (hk : k ∈ v.ownKeys) : v.hasOwnProperty k = .ok true := by
  cases v with
  | obj kvs =>
    simp only [shadowsHasOwnProperty] at h
    simp only [JVal.ownKeys, JVal.ownEntries] at hk
    simp [JVal.hasOwnProperty, h, hk]
  | arr xs => simp [JVal.hasOwnProperty, hk]
  | str s => simp [JVal.hasOwnProperty, hk]
  | undefined => simp [JVal.ownKeys, JVal.ownEntries] at hk
  | null => simp [JVal.ownKeys, JVal.ownEntries] at hk
  | bool b => simp [JVal.ownKeys, JVal.ownEntries] at hk
  | num q => simp [JVal.ownKeys, JVal.ownEntries] at hk

theorem getProp_of_hasOwnProperty (v : JVal) (k k' : String) (b : Bool)
    (h : v.hasOwnProperty k = .ok b) : v.getProp k' = .ok (v.get k') := by
  cases v <;> simp_all [JVal.hasOwnProperty, JVal.getProp]

theorem plainLoop_ok (c : Constants) (device : Device) (current : JVal) (ks : List String)
    (h : ∀ k ∈ ks, current.hasOwnProperty k = .ok true) (values : List Item) :
    plainLoop c device current ks values
      = .ok (values ++ ks.map fun k => Item.record (plainRecord c device current k)) := by
  induction ks generalizing values with
  | nil => simp [plainLoop, pure, Except.pure]
  | cons k ks ih =>
    have hk := h k (List.mem_cons_self _ _)
    have hg := getProp_of_hasOwnProperty current k k true hk
    have ih2 := ih (fun k' hk' => h k' (List.mem_cons_of_mem _ hk'))
    simp only [plainLoop, hk, hg, bind, Except.bind, ite_true, ih2]
    simp [plainRecord]

/-- Plain-dialect extraction on a value that does not hide `hasOwnProperty`:
one record per enumerable own key, in enumeration order. -/
theorem extractAttributes_plain (c : Constants) (device : Device) (current : JVal)
    (payloadType : Option String) (hd : isContextDialect c payloadType = false)
    (h : ¬ shadowsHasOwnProperty current) :
    extractAttributes c device current payloadType
      = .ok (current.ownKeys.map fun k => Item.record (plainRecord c device current k)) := by
  simp only [extractAttributes, hd]
  rw [if_neg (by simp)]
  rw [plainLoop_ok c device current current.ownKeys
    (fun k hk => hasOwnProperty_ownKeys current h k hk) []]
  simp

/-! ## Type inference -/

theorem findActive_eq_find (attrName : String) (acts : List ActiveAttribute) :
    findActive attrName acts
      = (acts.find? fun a => decide (a.name = attrName)).map ActiveAttribute.type := by
  induction acts with
  | nil => rfl
  | cons a rest ih =>
    by_cases h : a.name = attrName
    · simp [findActive, List.find?, h]
    · simp [findActive, List.find?, h, ih]

theorem findActive_none (attrName : String) (acts : List ActiveAttribute)
    (h : ∀ a ∈ acts, a.name ≠ attrName) : findActive attrName acts = none := by
  induction acts with
  | nil => rfl
  | cons a rest ih =>
    have ha := h a (List.mem_cons_self _ _)
    simp [findActive, ha, ih (fun b hb => h b (List.mem_cons_of_mem _ hb))]

/-- C5: when the attribute name occurs in `device.active`, `guessType` returns
the declared type of the first active entry with that name, whatever hint is
passed. -/
theorem C5_declared_type_wins (c : Constants) (attrName : String) (device : Device)
    (hint : JVal) (acts : List ActiveAttribute) (hactive : device.active = some acts)
    (hmem : ∃ a ∈ acts, a.name = attrName) :
    ∃ a, acts.find? (fun a => decide (a.name = attrName)) = some a ∧
      guessType c attrName device hint = a.type := by
  obtain ⟨b, hb, hname⟩ := hmem
  have hsome : (acts.find? fun a => decide (a.name = attrName)).isSome = true := by
    rw [List.find?_isSome]
    exact ⟨b, hb, by simp [hname]⟩
  obtain ⟨a, ha⟩ := Option.isSome_iff_exists.mp hsome
  refine ⟨a, ha, ?_⟩
  simp [guessType, hactive, findActive_eq_find, ha]

/-- C5 at the specification example: `temp` declared `Number`, hint `string`. -/
theorem C5_declared_type_wins_witness :
    ∃ a, [({ name := "temp", type := .str "Number" } : ActiveAttribute)].find?
        (fun a => decide (a.name = "temp")) = some a ∧
      guessType sampleConstants "temp" tempDevice (.str "string") = a.type :=
  C5_declared_type_wins sampleConstants "temp" tempDevice (.str "string")
    [{ name := "temp", type := .str "Number" }] rfl
    ⟨{ name := "temp", type := .str "Number" }, List.mem_cons_self _ _, rfl⟩

/-- C6: for a device with no active entry named after the timestamp attribute,
`guessType` on that name returns the NGSIv2 timestamp type, whatever hint is
passed. -/
theorem C6_timestamp_type (c : Constants) (device : Device) (hint : JVal)
    (hnone : ∀ acts, device.active = some acts →
      ∀ a ∈ acts, a.name ≠ c.TIMESTAMP_ATTRIBUTE) :
    guessType c c.TIMESTAMP_ATTRIBUTE device hint = .str c.TIMESTAMP_TYPE_NGSI2 := by
  cases hact : device.active with
  | none => simp [guessType, hact]
  | some acts => simp [guessType, hact, findActive_none _ acts (hnone acts hact)]

/-- C6 on a device that declares `temp` only, with the hint `Number`. -/
theorem C6_timestamp_type_witness :
    (∀ acts, tempDevice.active = some acts →
      ∀ a ∈ acts, a.name ≠ sampleConstants.TIMESTAMP_ATTRIBUTE) ∧
    guessType sampleConstants sampleConstants.TIMESTAMP_ATTRIBUTE tempDevice (.str "Number")
      = .str sampleConstants.TIMESTAMP_TYPE_NGSI2 :=
  have h : ∀ acts, tempDevice.active = some acts →
      ∀ a ∈ acts, a.name ≠ sampleConstants.TIMESTAMP_ATTRIBUTE := by
    intro acts hacts a ha
    simp only [tempDevice, Option.some.injEq] at hacts
    subst hacts
    simp only [List.mem_singleton] at ha
    subst ha
    decide
  ⟨h, C6_timestamp_type sampleConstants tempDevice (.str "Number") h⟩

/-! ## Payload decoding -/

theorem hexValue_hexDigit : ∀ n : Fin 16, hexValue (hexDigit n.val) = some n.val := by
  decide

theorem fromHex_toHex (bs : Buffer) : fromHex (toHex bs) = some bs := by
  induction bs with
  | nil => rfl
  | cons b bs ih =>
    have h1 := hexValue_hexDigit ⟨b.val / 16, by omega⟩
    have h2 := hexValue_hexDigit ⟨b.val % 16, by omega⟩
    simp only at h1 h2
    have h3 : 16 * (b.val / 16) + b.val % 16 = b.val := by omega
    simp only [toHex, fromHex, h1, h2, ih]
    simp [h3]

/-- C7: `parseMessage` is total and returns a sequence; a body that parses to an
array gives the elements of that array, in order; a body that parses to an
object gives the one-element sequence holding that object; and a body that is
not JSON gives the one-element sequence holding the hexadecimal rendering of
its bytes, from which the bytes can be read back. -/
theorem C7_parseMessage (js : Builtins) (message : Buffer) :
    (∀ xs, js.jsonParse (js.bufferToString message) = some (.arr xs) →
      parseMessage js message = xs) ∧
    (∀ kvs, js.jsonParse (js.bufferToString message) = some (.obj kvs) →
      parseMessage js message = [.obj kvs]) ∧
    (js.jsonParse (js.bufferToString message) = none →
      parseMessage js message = [.str (String.mk (toHex message))] ∧
      fromHex (toHex message) = some message) := by
  refine ⟨?_, ?_, ?_⟩
  · intro xs h
    simp [parseMessage, h]
  · intro kvs h
    simp [parseMessage, h]
  · intro h
    exact ⟨by simp [parseMessage, h], fromHex_toHex message⟩

/-- C7 on the two bytes `de ad`, which are not JSON: the decoded payload is the
one-element sequence holding the string `dead`. -/
theorem C7_parseMessage_witness :
    parseMessage sampleBuiltins [222, 173] = [.str "dead"] ∧
      fromHex (toHex [222, 173]) = some [222, 173] :=
  (C7_parseMessage sampleBuiltins [222, 173]).2.2 rfl

/-! ## Attribute extraction: plain dialect -/

/-- C1: on the payload `{"hasOwnProperty": 1}` plain-dialect extraction throws
a `TypeError` (the own property hides `Object.prototype.hasOwnProperty`)
instead of returning one record for the key. -/
theorem C1_plain_throws_when_hasOwnProperty_is_a_key :
    extractAttributes sampleConstants bareDevice (.obj [("hasOwnProperty", .num 1)]) none
      = .error .typeError := by
  rfl

/-! ## Attribute extraction: NGSIv2 -/

theorem hasOwnProperty_obj (kvs : List (String × JVal))
    (h : ¬ shadowsHasOwnProperty (.obj kvs)) (k : String) :
    (JVal.obj kvs).hasOwnProperty k = .ok (decide (k ∈ kvs.map Prod.fst)) := by
  simp only [shadowsHasOwnProperty] at h
  simp [JVal.hasOwnProperty, h]

theorem getProp_obj (fs : List (String × JVal)) (k : String) :
    (JVal.obj fs).getProp k = .ok ((JVal.obj fs).get k) := rfl

theorem entityLoop_ngsiv2 (c : Constants) (device : Device) (lowerType : String)
    (entity : JVal) (hv2 : lowerType = c.PAYLOAD_NGSIv2) (ks : List String)
    (hown : ∀ k ∈ ks, entity.hasOwnProperty k = .ok true)
    (hobj : ∀ k ∈ ks, k ∉ ["id", "type"] → ∃ fs, entity.get k = .obj fs)
    (valuesEntity : List AttributeRecord) :
    entityLoop c device lowerType entity ks valuesEntity
      = .ok (valuesEntity ++ ks.map (contextV2Record c device entity)) := by
  subst hv2
  induction ks generalizing valuesEntity with
  | nil => simp [entityLoop, pure, Except.pure]
  | cons k ks ih =>
    have hk := hown k (List.mem_cons_self _ _)
    have hg := getProp_of_hasOwnProperty entity k k true hk
    have ih2 := ih (fun k' hk' => hown k' (List.mem_cons_of_mem _ hk'))
      (fun k' hk' => hobj k' (List.mem_cons_of_mem _ hk'))
    by_cases hid : k ∈ ["id", "type"]
    · simp only [entityLoop, hk, hg, bind, Except.bind, ite_true, hid, ih2]
      simp [contextV2Record, hid]
    · obtain ⟨fs, hfs⟩ := hobj k (List.mem_cons_self _ _) hid
      rw [hfs] at hg
      simp only [entityLoop, hk, hg, bind, Except.bind, ite_true, hid, ite_false,
        ngsiv2Record, getProp_obj, pure, Except.pure, ih2]
      simp [contextV2Record, hid, hfs]

theorem entitiesLoop_single (c : Constants) (device : Device) (lowerType : String)
    (entity : JVal) :
    entitiesLoop c device lowerType 1 [entity] []
      = (entityLoop c device lowerType entity entity.ownKeys []).map
          (List.map Item.record) := by
  cases h : entityLoop c device lowerType entity entity.ownKeys [] <;>
    simp [entitiesLoop, h, bind, Except.bind, Except.map, pure, Except.pure]

/-- Under a context dialect a record that is no envelope is the only entity:
the result is the records of its keys, unnested. -/
theorem extractAttributes_single (c : Constants) (device : Device)
    (kvs : List (String × JVal)) (p : String) (hd : isContextDialect c (some p) = true)
    (hsh : ¬ shadowsHasOwnProperty (.obj kvs)) (henv : ¬ isEnvelope kvs) :
    extractAttributes c device (.obj kvs) (some p)
      = (entityLoop c device (toLowerCase p) (.obj kvs) (kvs.map Prod.fst) []).map
          (List.map Item.record) := by
  have hkeys : (JVal.obj kvs).ownKeys = kvs.map Prod.fst := rfl
  rw [← hkeys, ← entitiesLoop_single]
  simp only [extractAttributes, hd, ite_true, hasOwnProperty_obj kvs hsh, bind, Except.bind,
    Option.getD_some]
  by_cases h1 : "actionType" ∈ kvs.map Prod.fst
  · have h2 : "entities" ∉ kvs.map Prod.fst := fun h2 => henv ⟨h1, h2⟩
    simp [h1, h2, pure, Except.pure, JVal.iterate]
  · simp [h1, pure, Except.pure, JVal.iterate]

/-- C2 (amended): under the NGSIv2 dialect, a record that is no envelope, has no
own key `hasOwnProperty` and whose non-identity values are objects yields one
unnested record per own key, in key order: `id` and `type` are carried
verbatim, typed without a hint and without metadata; any other key `k` gives
the name `k`, the type `guessType(k, device, entity[k].type)`, the value
`entity[k].value`, and the metadata `entity[k].metadata` when that value is
truthy, no metadata otherwise. -/
theorem C2_contextV2_single_entity (c : Constants) (device : Device)
    (kvs : List (String × JVal)) (p : String) (hp : p ≠ "")
    (hv2 : toLowerCase p = c.PAYLOAD_NGSIv2)
    (hsh : "hasOwnProperty" ∉ kvs.map Prod.fst) (henv : ¬ isEnvelope kvs)
    (hobj : ∀ k ∈ kvs.map Prod.fst, k ∉ ["id", "type"] → ∃ fs, JVal.lookup k kvs = .obj fs) :
    extractAttributes c device (.obj kvs) (some p)
      = .ok ((kvs.map Prod.fst).map fun k =>
          Item.record (contextV2Record c device (.obj kvs) k)) := by
  have hd : isContextDialect c (some p) = true := by simp [isContextDialect, hp, hv2]
  rw [extractAttributes_single c device kvs p hd hsh henv,
    entityLoop_ngsiv2 c device (toLowerCase p) (.obj kvs) hv2 (kvs.map Prod.fst)
      (fun k hk => hasOwnProperty_ownKeys (.obj kvs) hsh k hk) hobj []]
  simp [Except.map]

/-- C2 at the specification example `{id:"e1", type:"T", temp:{value:21,
type:"Number"}}`, dialect written `NGSIv2`, device without active attributes. -/
theorem C2_contextV2_single_entity_witness :
    extractAttributes sampleConstants bareDevice
        (.obj [("id", .str "e1"), ("type", .str "T"),
          ("temp", .obj [("value", .num 21), ("type", .str "Number")])])
        (some "NGSIv2")
      = .ok [Item.record { name := "id", type := .str "string", value := .str "e1" },
          Item.record { name := "type", type := .str "string", value := .str "T" },
          Item.record { name := "temp", type := .str "Number", value := .num 21 }] :=
  (C2_contextV2_single_entity sampleConstants bareDevice
    [("id", .str "e1"), ("type", .str "T"),
      ("temp", .obj [("value", .num 21), ("type", .str "Number")])]
    "NGSIv2" (by decide) (by decide) (by decide) (by simp [isEnvelope])
    (by
      intro k hk hid
      simp only [List.map_cons, List.map_nil, List.mem_cons, List.mem_singleton,
        List.not_mem_nil, or_false] at hk hid
      rcases hk with h | h | h
      · exact absurd h (fun h' => hid (Or.inl h'))
      · exact absurd h (fun h' => hid (Or.inr h'))
      · subst h
        exact ⟨_, rfl⟩)).trans rfl

/-- C2 as stated fails on `{temp:{value:21, metadata:false}}`: the emitted
record has no metadata, whereas `entity.temp.metadata` is `false`. -/
theorem C2_counterexample_falsy_metadata :
    ∃ r, extractAttributes sampleConstants bareDevice
        (.obj [("temp", .obj [("value", .num 21), ("metadata", .bool false)])])
        (some "ngsiv2") = .ok [Item.record r] ∧
      r.metadata = .undefined ∧
      ((JVal.obj [("temp", .obj [("value", .num 21), ("metadata", .bool false)])]).get
        "temp").get "metadata" = .bool false ∧
      r.metadata ≠ ((JVal.obj [("temp", .obj [("value", .num 21),
        ("metadata", .bool false)])]).get "temp").get "metadata" :=
  ⟨{ name := "temp", type := .str "string", value := .num 21 }, rfl, rfl, rfl,
    fun h => JVal.noConfusion h⟩

/-! ## Attribute extraction: NGSI-LD -/

theorem lookup_append_singleton (f k : String) (v : JVal) (kvs : List (String × JVal))
    (hk : k ∉ kvs.map Prod.fst) :
    JVal.lookup f (kvs ++ [(k, v)]) = if k = f then v else JVal.lookup f kvs := by
  induction kvs with
  | nil => simp [JVal.lookup]
  | cons q rest ih =>
    obtain ⟨k', v'⟩ := q
    simp only [List.map_cons, List.mem_cons, not_or] at hk
    by_cases h : k' = f
    · have hne : ¬ k = f := fun hkf => hk.1 (hkf.trans h.symm)
      simp [JVal.lookup, h, hne]
    · simp [JVal.lookup, h, ih hk.2]

theorem lookup_map_replace (f k : String) (v : JVal) (kvs : List (String × JVal)) :
    JVal.lookup f (kvs.map fun q => if q.1 = k then (k, v) else q)
      = if k = f ∧ k ∈ kvs.map Prod.fst then v else JVal.lookup f kvs := by
  induction kvs with
  | nil => simp [JVal.lookup]
  | cons q rest ih =>
    obtain ⟨k', v'⟩ := q
    rw [List.map_cons]
    by_cases h : k' = k
    · have e : (if (k', v').1 = k then (k, v) else (k', v')) = (k, v) := if_pos h
      rw [e, JVal.lookup, ih]
      by_cases hf : k = f
      · simp [hf, h]
      · have hf' : ¬ k' = f := fun h' => hf (h.symm.trans h')
        simp [hf, hf', JVal.lookup]
    · have e : (if (k', v').1 = k then (k, v) else (k', v')) = (k', v') := if_neg h
      have h' : ¬ k = k' := fun hh => h hh.symm
      rw [e, JVal.lookup, ih]
      by_cases hf : k' = f
      · have hne : ¬ k = f := fun hkf => h (hf.trans hkf.symm)
        simp [hf, hne, JVal.lookup]
      · rw [if_neg hf]
        by_cases hm : k ∈ rest.map Prod.fst
        · by_cases hkf : k = f
          · rw [if_pos ⟨hkf, hm⟩, if_pos ⟨hkf, List.mem_cons_of_mem _ hm⟩]
          · rw [if_neg (fun hh => hkf hh.1), if_neg (fun hh => hkf hh.1)]
            simp [JVal.lookup, hf]
        · have hm' : k ∉ k' :: rest.map Prod.fst := by
            simp only [List.mem_cons, not_or]
            exact ⟨h', hm⟩
          rw [if_neg (fun hh => hm hh.2), if_neg (fun hh => hm' hh.2)]
          simp [JVal.lookup, hf]

theorem lookup_setProp (f k : String) (v : JVal) (kvs : List (String × JVal))
    (hf : f ≠ "__proto__") :
    JVal.lookup f (setProp k v kvs) = if k = f then v else JVal.lookup f kvs := by
  unfold setProp
  by_cases hp : k = "__proto__"
  · have hne : ¬ k = f := fun h => hf (h.symm.trans hp)
    rw [if_pos hp, if_neg hne]
  · by_cases hk : k ∈ kvs.map Prod.fst
    · rw [if_neg hp, if_pos hk, lookup_map_replace]
      simp [hk]
    · rw [if_neg hp, if_neg hk]
      exact lookup_append_singleton f k v kvs hk

theorem metadataLoop_lookup (field : JVal) (keys : List String) (metadata : JVal) (f : String)
    (hf : f ≠ "__proto__") :
    JVal.lookup f (metadataProps (metadataLoop field keys metadata))
      = if f ∈ keys ∧ ¬ reservedField f then .obj [("value", field.get f)]
        else JVal.lookup f (metadataProps metadata) := by
  induction keys generalizing metadata with
  | nil => simp [metadataLoop]
  | cons key keys ih =>
    by_cases hres : toLowerCase key ∈ ["type", "value", "object"]
    · rw [metadataLoop, if_pos hres, ih]
      by_cases hfk : f = key
      · subst hfk
        simp [reservedField, hres]
      · simp [hfk]
    · rw [metadataLoop, if_neg hres, ih]
      simp only [metadataProps, lookup_setProp f key _ _ hf]
      by_cases hfk : f = key
      · subst hfk
        simp [reservedField, hres]
      · have hkf : ¬ key = f := fun h => hfk h.symm
        simp [hfk, hkf]

theorem metadataLoop_obj (field : JVal) (keys : List String) (kvs : List (String × JVal)) :
    ∃ kvs', metadataLoop field keys (.obj kvs) = .obj kvs' := by
  induction keys generalizing kvs with
  | nil => exact ⟨kvs, rfl⟩
  | cons key keys ih =>
    by_cases hres : toLowerCase key ∈ ["type", "value", "object"]
    · rw [metadataLoop, if_pos hres]
      exact ih kvs
    · rw [metadataLoop, if_neg hres]
      exact ih _

theorem metadataLoop_undefined_iff (field : JVal) (keys : List String) :
    metadataLoop field keys .undefined = .undefined ↔ ∀ f ∈ keys, reservedField f := by
  induction keys with
  | nil => simp [metadataLoop]
  | cons key keys ih =>
    rw [List.forall_mem_cons]
    by_cases hres : toLowerCase key ∈ ["type", "value", "object"]
    · rw [metadataLoop, if_pos hres, ih]
      exact ⟨fun h => ⟨hres, h⟩, fun h => h.2⟩
    · rw [metadataLoop, if_neg hres]
      obtain ⟨kvs', hkvs⟩ := metadataLoop_obj field keys
        (setProp key (.obj [("value", field.get key)]) (metadataProps .undefined))
      rw [hkvs]
      exact ⟨fun h => JVal.noConfusion h, fun h => absurd h.1 hres⟩

theorem get_eq_lookup_metadataProps (md : JVal) (f : String)
    (h : md = .undefined ∨ ∃ kvs, md = .obj kvs) :
    md.get f = JVal.lookup f (metadataProps md) := by
  rcases h with h | ⟨kvs, h⟩ <;> subst h <;> rfl

theorem metadataLoop_shape (field : JVal) (keys : List String) :
    metadataLoop field keys .undefined = .undefined ∨
      ∃ kvs, metadataLoop field keys .undefined = .obj kvs := by
  cases keys with
  | nil => exact Or.inl rfl
  | cons key keys =>
    by_cases hres : toLowerCase key ∈ ["type", "value", "object"]
    · rw [metadataLoop, if_pos hres]
      exact metadataLoop_shape field keys
    · rw [metadataLoop, if_neg hres]
      exact Or.inr (metadataLoop_obj field keys _)

theorem ngsildRecord_obj (c : Constants) (device : Device) (k : String)
    (fs : List (String × JVal)) (hctx : toLowerCase k ≠ "@context")
    (huse : usableType (JVal.lookup "type" fs)) :
    ∃ r, ngsildRecord c device k (.obj fs) = .ok r ∧ r.name = k ∧
      r.metadata = metadataLoop (.obj fs) (fs.map Prod.fst) .undefined ∧
      ∀ t, JVal.lookup "type" fs = .str t → t ≠ "" →
        (toLowerCase t ∈ ["property", "geoproperty"] → r.value = JVal.lookup "value" fs) ∧
        (toLowerCase t = "relationship" → r.value = JVal.lookup "object" fs) := by
  have hget : ∀ n, (JVal.obj fs).get n = JVal.lookup n fs := fun _ => rfl
  have hkeys : (JVal.obj fs).ownKeys = fs.map Prod.fst := rfl
  by_cases htr : (JVal.lookup "type" fs).truthy = true
  · obtain ⟨s, hs⟩ := huse htr
    by_cases h1 : toLowerCase s ∈ ["property", "geoproperty"]
    · refine ⟨⟨k, guessType c k device (.str s), JVal.lookup "value" fs,
        metadataLoop (.obj fs) (fs.map Prod.fst) .undefined⟩, ?_, rfl, rfl, ?_⟩
      · rw [hs] at htr
        simp only [ngsildRecord, if_neg hctx, getProp_obj, hget, hs, htr, bind, Except.bind,
          if_true, JVal.toLowerCase, if_pos h1, pure, Except.pure, hkeys]
      · intro t ht _
        rw [hs] at ht
        cases ht
        refine ⟨fun _ => rfl, fun h2 => ?_⟩
        rw [h2] at h1
        exact absurd h1 (by decide)
    · by_cases h2 : toLowerCase s = "relationship"
      · refine ⟨⟨k, guessType c k device (.str s), JVal.lookup "object" fs,
          metadataLoop (.obj fs) (fs.map Prod.fst) .undefined⟩, ?_, rfl, rfl, ?_⟩
        · rw [hs] at htr
          simp only [ngsildRecord, if_neg hctx, getProp_obj, hget, hs, htr, bind, Except.bind,
            if_true, JVal.toLowerCase, if_neg h1, if_pos h2, pure, Except.pure, hkeys]
        · intro t ht _
          rw [hs] at ht
          cases ht
          exact ⟨fun h => absurd h h1, fun _ => rfl⟩
      · refine ⟨⟨k, guessType c k device (.str s), .undefined,
          metadataLoop (.obj fs) (fs.map Prod.fst) .undefined⟩, ?_, rfl, rfl, ?_⟩
        · rw [hs] at htr
          simp only [ngsildRecord, if_neg hctx, getProp_obj, hget, hs, htr, bind, Except.bind,
            if_true, JVal.toLowerCase, if_neg h1, if_neg h2, pure, Except.pure, hkeys]
        · intro t ht _
          rw [hs] at ht
          cases ht
          exact ⟨fun h => absurd h h1, fun h => absurd h h2⟩
  · refine ⟨⟨k, .undefined, .undefined,
      metadataLoop (.obj fs) (fs.map Prod.fst) .undefined⟩, ?_, rfl, rfl, ?_⟩
    · simp only [ngsildRecord, if_neg hctx, getProp_obj, hget, htr, bind, Except.bind,
        pure, Except.pure, hkeys]
      rfl
    · intro t ht hne
      rw [ht] at htr
      exact absurd (by simp [JVal.truthy, hne]) htr

theorem typedKeyProperty_of_record (kvs fs : List (String × JVal)) (k : String)
    (r : AttributeRecord) (hfs : JVal.lookup k kvs = .obj fs)
    (hmeta : r.metadata = metadataLoop (.obj fs) (fs.map Prod.fst) .undefined)
    (hval : ∀ t, JVal.lookup "type" fs = .str t → t ≠ "" →
      (toLowerCase t ∈ ["property", "geoproperty"] → r.value = JVal.lookup "value" fs) ∧
      (toLowerCase t = "relationship" → r.value = JVal.lookup "object" fs)) :
    typedKeyProperty kvs k r := by
  intro fs' t _ _ hfs' ht hne
  rw [hfs] at hfs'
  cases hfs'
  refine ⟨(hval t ht hne).1, (hval t ht hne).2, ?_, ?_⟩
  · intro f hf
    rw [hmeta, get_eq_lookup_metadataProps _ f (metadataLoop_shape _ _),
      metadataLoop_lookup _ _ _ f hf]
    rfl
  · rw [hmeta]
    exact metadataLoop_undefined_iff _ _

theorem entityLoop_ngsild (c : Constants) (device : Device) (lowerType : String)
    (kvs : List (String × JVal)) (hld : lowerType = c.PAYLOAD_NGSILD)
    (hnv2 : lowerType ≠ c.PAYLOAD_NGSIv2) (ks : List String)
    (hown : ∀ k ∈ ks, (JVal.obj kvs).hasOwnProperty k = .ok true)
    (hsafe : ∀ k ∈ ks, k ∉ ["id", "type"] → toLowerCase k ≠ "@context" →
      ∃ fs, JVal.lookup k kvs = .obj fs ∧ usableType (JVal.lookup "type" fs))
    (valuesEntity : List AttributeRecord) :
    ∃ rs, entityLoop c device lowerType (.obj kvs) ks valuesEntity = .ok (valuesEntity ++ rs) ∧
      List.Forall₂ (fun k r => r.name = k ∧ typedKeyProperty kvs k r) ks rs := by
  induction ks generalizing valuesEntity with
  | nil => exact ⟨[], by simp [entityLoop, pure, Except.pure], List.Forall₂.nil⟩
  | cons k ks ih =>
    have hk := hown k (List.mem_cons_self _ _)
    have hget : (JVal.obj kvs).get k = JVal.lookup k kvs := rfl
    have ih2 := ih (fun k' hk' => hown k' (List.mem_cons_of_mem _ hk'))
      (fun k' hk' => hsafe k' (List.mem_cons_of_mem _ hk'))
    by_cases hid : k ∈ ["id", "type"]
    · obtain ⟨rs, hrs, hall⟩ := ih2
        (valuesEntity ++ [⟨k, guessType c k device .null, JVal.lookup k kvs, .undefined⟩])
      refine ⟨⟨k, guessType c k device .null, JVal.lookup k kvs, .undefined⟩ :: rs, ?_,
        List.Forall₂.cons ⟨rfl, fun _ _ hn => absurd hid hn⟩ hall⟩
      simp only [entityLoop, hk, getProp_obj, hget, bind, Except.bind, ite_true, hid, hrs]
      simp
    · by_cases hctx : toLowerCase k = "@context"
      · obtain ⟨rs, hrs, hall⟩ := ih2
          (valuesEntity ++ [⟨k, .str "@context", JVal.lookup k kvs, .undefined⟩])
        refine ⟨⟨k, .str "@context", JVal.lookup k kvs, .undefined⟩ :: rs, ?_,
          List.Forall₂.cons ⟨rfl, fun _ _ _ hn => absurd hctx hn⟩ hall⟩
        simp only [entityLoop, hk, getProp_obj, hget, bind, Except.bind, ite_true, hid,
          ite_false, if_neg hnv2, if_pos hld, ngsildRecord, if_pos hctx, pure, Except.pure, hrs]
        simp
      · obtain ⟨fs, hfs, huse⟩ := hsafe k (List.mem_cons_self _ _) hid hctx
        obtain ⟨r, hr, hname, hmeta, hval⟩ := ngsildRecord_obj c device k fs hctx huse
        obtain ⟨rs, hrs, hall⟩ := ih2 (valuesEntity ++ [r])
        refine ⟨r :: rs, ?_,
          List.Forall₂.cons ⟨hname, typedKeyProperty_of_record kvs fs k r hfs hmeta hval⟩ hall⟩
        simp only [entityLoop, hk, getProp_obj, hget, hfs, bind, Except.bind, ite_true, hid,
          ite_false, if_neg hnv2, if_pos hld, hr, hrs]
        simp

/-- C3 (amended): under the NGSI-LD dialect, take a record that is no envelope,
has no own key `hasOwnProperty`, and whose keys other than `id`, `type` and the
spellings of `@context` hold objects whose `type` is a string or falsy.
Extraction returns one unnested record per own key, in key order, named after
the key; and for every key other than `id`, `type` and any spelling of
`@context` whose object declares a type, the value is `entity[k].value` for
`property`/`geoproperty` (any letter case) and `entity[k].object` for
`relationship`, while the metadata holds `{value: entity[k][f]}` under every
field `f` whose lower-cased name is none of `type`, `value`, `object`, nothing
under any other name, and is absent when there is no such field (nothing is
said about a field named `__proto__`). -/
theorem C3_contextLD_typed_key (c : Constants) (device : Device)
    (kvs : List (String × JVal)) (p : String) (hp : p ≠ "")
    (hld : toLowerCase p = c.PAYLOAD_NGSILD) (hnv2 : toLowerCase p ≠ c.PAYLOAD_NGSIv2)
    (hsh : "hasOwnProperty" ∉ kvs.map Prod.fst) (henv : ¬ isEnvelope kvs)
    (hsafe : ∀ k ∈ kvs.map Prod.fst, k ∉ ["id", "type"] → toLowerCase k ≠ "@context" →
      ∃ fs, JVal.lookup k kvs = .obj fs ∧ usableType (JVal.lookup "type" fs)) :
    ∃ rs, extractAttributes c device (.obj kvs) (some p) = .ok (rs.map Item.record) ∧
      List.Forall₂ (fun k r => r.name = k ∧ typedKeyProperty kvs k r) (kvs.map Prod.fst) rs := by
  have hd : isContextDialect c (some p) = true := by simp [isContextDialect, hp, hld]
  obtain ⟨rs, hrs, hall⟩ := entityLoop_ngsild c device (toLowerCase p) kvs hld hnv2
    (kvs.map Prod.fst) (fun k hk => hasOwnProperty_ownKeys (.obj kvs) hsh k hk) hsafe []
  refine ⟨rs, ?_, hall⟩
  rw [extractAttributes_single c device kvs p hd hsh henv, hrs]
  simp [Except.map]

/-- C3 at the specification example `{speed:{type:"Property", value:10,
accuracy:0.5}}`: one record, value `10`, metadata `{accuracy:{value:0.5}}`. -/
theorem C3_contextLD_typed_key_witness :
    (∃ rs, extractAttributes sampleConstants bareDevice (.obj speedEntity) (some "ngsild")
        = .ok (rs.map Item.record) ∧
      List.Forall₂ (fun k r => r.name = k ∧ typedKeyProperty speedEntity k r)
        (speedEntity.map Prod.fst) rs) ∧
    extractAttributes sampleConstants bareDevice (.obj speedEntity) (some "ngsild")
      = .ok [Item.record ⟨"speed", .str "Property", .num 10,
          .obj [("accuracy", .obj [("value", .num (1 / 2))])]⟩] :=
  ⟨C3_contextLD_typed_key sampleConstants bareDevice speedEntity "ngsild"
    (by decide) (by decide) (by decide) (by decide) (by simp [isEnvelope, speedEntity])
    (by
      intro k hk _ _
      simp only [speedEntity, List.map_cons, List.map_nil, List.mem_singleton] at hk
      subst hk
      exact ⟨_, rfl, fun _ => ⟨"Property", rfl⟩⟩), rfl⟩

/-- C3 as stated fails on three inputs.  For the key `@Context` (not the
literal `@context`) holding `{type:"Property", value:10}` the emitted value is
the whole object, not `10`.  For `{speed:{type:"Property", value:10, Value:3}}`
the field `Value` is not folded into the metadata, which stays absent.  And on
`{bad:null, speed:{type:"Property", value:10}}` extraction throws, so no record
is emitted for `speed`. -/
theorem C3_counterexample_letter_case :
    (∃ r, extractAttributes sampleConstants bareDevice
        (.obj [("@Context", .obj [("type", .str "Property"), ("value", .num 10)])])
        (some "ngsild") = .ok [Item.record r] ∧
      r.value = .obj [("type", .str "Property"), ("value", .num 10)] ∧
      r.value ≠ JVal.lookup "value" [("type", .str "Property"), ("value", .num 10)]) ∧
    (∃ r, extractAttributes sampleConstants bareDevice
        (.obj [("speed", .obj [("type", .str "Property"), ("value", .num 10),
          ("Value", .num 3)])])
        (some "ngsild") = .ok [Item.record r] ∧
      r.metadata = .undefined ∧
      r.metadata.get "Value" ≠ .obj [("value", .num 3)]) ∧
    extractAttributes sampleConstants bareDevice
        (.obj [("bad", .null), ("speed", .obj [("type", .str "Property"), ("value", .num 10)])])
        (some "ngsild") = .error .typeError :=
  ⟨⟨⟨"@Context", .str "@context", .obj [("type", .str "Property"), ("value", .num 10)],
      .undefined⟩, rfl, rfl, fun h => JVal.noConfusion h⟩,
    ⟨⟨"speed", .str "Property", .num 10, .undefined⟩, rfl, rfl, fun h => JVal.noConfusion h⟩,
    rfl⟩

/-! ## Attribute extraction: envelopes -/

theorem entitiesLoop_many (c : Constants) (device : Device) (lowerType : String) (count : Nat)
    (hcount : count > 1) (ents : List JVal) (values items : List Item) :
    entitiesLoop c device lowerType count ents values = .ok items ↔
      ∃ gs, items = values ++ gs.map Item.group ∧
        List.Forall₂ (fun e g => entityLoop c device lowerType e e.ownKeys [] = .ok g)
          ents gs := by
  induction ents generalizing values with
  | nil =>
    simp only [entitiesLoop, pure, Except.pure, Except.ok.injEq]
    constructor
    · intro h
      exact ⟨[], by simp [h], List.Forall₂.nil⟩
    · rintro ⟨gs, hitems, hall⟩
      cases hall
      simp [hitems]
  | cons e es ih =>
    cases he : entityLoop c device lowerType e e.ownKeys [] with
    | error err =>
      simp only [entitiesLoop, he, bind, Except.bind]
      constructor
      · intro h
        cases h
      · rintro ⟨gs, _, hall⟩
        cases hall with
        | cons h _ =>
          rw [he] at h
          cases h
    | ok g =>
      simp only [entitiesLoop, he, bind, Except.bind, if_pos hcount, ih]
      constructor
      · rintro ⟨gs, hitems, hall⟩
        exact ⟨g :: gs, by simp [hitems], List.Forall₂.cons he hall⟩
      · rintro ⟨gs, hitems, hall⟩
        cases hall with
        | cons h hrest =>
          rw [he] at h
          cases h
          exact ⟨_, by simp [hitems], hrest⟩

theorem entityLoop_shadowed (c : Constants) (device : Device) (lowerType : String)
    (kvs : List (String × JVal)) (hsh : shadowsHasOwnProperty (.obj kvs))
    (valuesEntity : List AttributeRecord) :
    entityLoop c device lowerType (.obj kvs) (kvs.map Prod.fst) valuesEntity
      = .error .typeError := by
  have hsh' : "hasOwnProperty" ∈ kvs.map Prod.fst := hsh
  cases hkeys : kvs.map Prod.fst with
  | nil => rw [hkeys] at hsh'; cases hsh'
  | cons k ks =>
    have hthrow : (JVal.obj kvs).hasOwnProperty k = .error .typeError := by
      simp [JVal.hasOwnProperty, hsh']
    simp [entityLoop, hthrow, bind, Except.bind]

/-- The extraction of an object that is no envelope, taken alone, is the
extraction of its keys as one entity. -/
theorem extractAttributes_alone (c : Constants) (device : Device)
    (kvs : List (String × JVal)) (p : String) (hd : isContextDialect c (some p) = true)
    (henv : ¬ isEnvelope kvs) (rs : List AttributeRecord) :
    extractAttributes c device (.obj kvs) (some p) = .ok (rs.map Item.record) ↔
      entityLoop c device (toLowerCase p) (.obj kvs) (JVal.obj kvs).ownKeys [] = .ok rs := by
  have hkeys : (JVal.obj kvs).ownKeys = kvs.map Prod.fst := rfl
  have hinj : Function.Injective Item.record := fun a b h => by cases h; rfl
  by_cases hsh : shadowsHasOwnProperty (.obj kvs)
  · rw [hkeys, entityLoop_shadowed c device _ kvs hsh]
    have hsh' : "hasOwnProperty" ∈ kvs.map Prod.fst := hsh
    simp [extractAttributes, hd, JVal.hasOwnProperty, hsh', bind, Except.bind]
  · rw [extractAttributes_single c device kvs p hd hsh henv, hkeys]
    cases entityLoop c device (toLowerCase p) (.obj kvs) (kvs.map Prod.fst) [] with
    | error err => simp [Except.map]
    | ok rs' =>
      simp only [Except.map, Except.ok.injEq]
      exact ⟨fun h => List.map_injective_iff.mpr hinj h, fun h => by rw [h]⟩

theorem extractAttributes_envelope (c : Constants) (device : Device)
    (kvs : List (String × JVal)) (p : String) (hd : isContextDialect c (some p) = true)
    (hsh : "hasOwnProperty" ∉ kvs.map Prod.fst) (henv : isEnvelope kvs) (ents : List JVal)
    (hents : JVal.lookup "entities" kvs = .arr ents) :
    extractAttributes c device (.obj kvs) (some p)
      = entitiesLoop c device (toLowerCase p) ents.length ents [] := by
  have hget : (JVal.obj kvs).get "entities" = JVal.lookup "entities" kvs := rfl
  simp [extractAttributes, hd, hasOwnProperty_obj kvs hsh, henv.1, henv.2, bind, Except.bind,
    getProp_obj, hget, hents, JVal.iterate]

/-- C4 (amended): under a context dialect, take an envelope without an own key
`hasOwnProperty` whose `entities` array has at least two elements, each an
object that is not itself an envelope.  Extraction returns exactly when the
extraction of every entity taken alone returns, and the result is then the list
of those per-entity record lists, nested, one per entity, in input order. -/
theorem C4_multi_entity_batching (c : Constants) (device : Device)
    (kvs : List (String × JVal)) (p : String) (hp : p ≠ "")
    (hdialect : toLowerCase p = c.PAYLOAD_NGSIv2 ∨ toLowerCase p = c.PAYLOAD_NGSILD)
    (hsh : "hasOwnProperty" ∉ kvs.map Prod.fst) (henv : isEnvelope kvs) (ents : List JVal)
    (hents : JVal.lookup "entities" kvs = .arr ents) (hn : 2 ≤ ents.length)
    (hplain : ∀ e ∈ ents, ∃ ekvs, e = .obj ekvs ∧ ¬ isEnvelope ekvs) (items : List Item) :
    extractAttributes c device (.obj kvs) (some p) = .ok items ↔
      ∃ rss : List (List AttributeRecord), items = rss.map Item.group ∧
        List.Forall₂
          (fun e rs => extractAttributes c device e (some p) = .ok (rs.map Item.record))
          ents rss := by
  have hd : isContextDialect c (some p) = true := by
    rcases hdialect with h | h <;> simp [isContextDialect, hp, h]
  rw [extractAttributes_envelope c device kvs p hd hsh henv ents hents,
    entitiesLoop_many c device (toLowerCase p) ents.length (by omega) ents [] items]
  have hiff : ∀ rss : List (List AttributeRecord),
      List.Forall₂ (fun e g => entityLoop c device (toLowerCase p) e e.ownKeys [] = .ok g)
        ents rss ↔
      List.Forall₂
        (fun e rs => extractAttributes c device e (some p) = .ok (rs.map Item.record))
        ents rss := by
    intro rss
    clear hents hn
    induction ents generalizing rss with
    | nil => constructor <;> (intro h; cases h; exact List.Forall₂.nil)
    | cons e es ih =>
      obtain ⟨ekvs, he, hne⟩ := hplain e (List.mem_cons_self _ _)
      have ih2 := ih (fun e' he' => hplain e' (List.mem_cons_of_mem _ he'))
      subst he
      constructor
      · intro h
        cases h with
        | cons h1 hrest =>
          exact List.Forall₂.cons
            ((extractAttributes_alone c device ekvs p hd hne _).mpr h1) ((ih2 _).mp hrest)
      · intro h
        cases h with
        | cons h1 hrest =>
          exact List.Forall₂.cons
            ((extractAttributes_alone c device ekvs p hd hne _).mp h1) ((ih2 _).mpr hrest)
  constructor
  · rintro ⟨gs, hitems, hall⟩
    exact ⟨gs, by simpa using hitems, (hiff gs).mp hall⟩
  · rintro ⟨rss, hitems, hall⟩
    exact ⟨rss, by simpa using hitems, (hiff rss).mpr hall⟩

/-- C4 on an envelope of two entities under NGSIv2: two inner lists, the records
of `e1` then the records of `e2`. -/
theorem C4_multi_entity_batching_witness :
    extractAttributes sampleConstants bareDevice (.obj twoEntities) (some "ngsiv2")
      = .ok [Item.group [⟨"id", .str "string", .str "e1", .undefined⟩,
                ⟨"temp", .str "Number", .num 21, .undefined⟩],
             Item.group [⟨"id", .str "string", .str "e2", .undefined⟩,
                ⟨"temp", .str "Number", .num 22, .undefined⟩]] :=
  (C4_multi_entity_batching sampleConstants bareDevice twoEntities "ngsiv2"
    (by decide) (Or.inl (by decide)) (by decide)
    ⟨by simp [twoEntities], by simp [twoEntities]⟩
    [.obj [("id", .str "e1"), ("temp", .obj [("value", .num 21), ("type", .str "Number")])],
     .obj [("id", .str "e2"), ("temp", .obj [("value", .num 22), ("type", .str "Number")])]]
    rfl (by decide)
    (by
      intro e he
      simp only [List.mem_cons, List.mem_singleton, List.not_mem_nil, or_false] at he
      rcases he with h | h <;> subst h <;> exact ⟨_, rfl, by simp [isEnvelope]⟩)
    _).mpr
    ⟨[[⟨"id", .str "string", .str "e1", .undefined⟩,
        ⟨"temp", .str "Number", .num 21, .undefined⟩],
      [⟨"id", .str "string", .str "e2", .undefined⟩,
        ⟨"temp", .str "Number", .num 22, .undefined⟩]], rfl,
      List.Forall₂.cons rfl (List.Forall₂.cons rfl List.Forall₂.nil)⟩

/-- C4 as stated fails on the envelope whose entities are `{actionType:"x",
entities:[]}` and `null`: the batch has two inner lists, of two records and of
none, whereas the first entity taken alone extracts to no record at all (it is
unwrapped as an envelope) and the second taken alone throws. -/
theorem C4_counterexample_entity_taken_alone :
    extractAttributes sampleConstants bareDevice
        (.obj [("actionType", .str "append"),
          ("entities", .arr [.obj [("actionType", .str "x"), ("entities", .arr [])], .null])])
        (some "ngsiv2")
      = .ok [Item.group [⟨"actionType", .str "string", .undefined, .undefined⟩,
                ⟨"entities", .str "string", .undefined, .undefined⟩],
             Item.group []] ∧
    extractAttributes sampleConstants bareDevice
        (.obj [("actionType", .str "x"), ("entities", .arr [])]) (some "ngsiv2") = .ok [] ∧
    extractAttributes sampleConstants bareDevice .null (some "ngsiv2") = .error .typeError :=
  ⟨rfl, rfl, rfl⟩

/-! ## Topic routing -/

theorem splitSlash_ne_nil (cs : List Char) : splitSlash cs ≠ [] := by
  cases cs with
  | nil => simp [splitSlash]
  | cons ch rest =>
    by_cases h : ch = '/'
    · simp [splitSlash, h]
    · simp only [splitSlash, if_neg h]
      cases splitSlash rest <;> simp

theorem splitSlash_segment (seg rest : List Char) (h : '/' ∉ seg) :
    splitSlash (seg ++ '/' :: rest) = seg :: splitSlash rest := by
  induction seg with
  | nil => simp [splitSlash]
  | cons ch seg ih =>
    simp only [List.mem_cons, not_or] at h
    have hne : ¬ ch = '/' := fun hh => h.1 hh.symm
    simp [splitSlash, hne, ih h.2]

theorem splitSlash_last (seg : List Char) (h : '/' ∉ seg) : splitSlash seg = [seg] := by
  induction seg with
  | nil => simp [splitSlash]
  | cons ch seg ih =>
    simp only [List.mem_cons, not_or] at h
    have hne : ¬ ch = '/' := fun hh => h.1 hh.symm
    simp [splitSlash, hne, ih h.2]

/-- The segments of a topic written `/s0/s1/deviceId/action/attribute`. -/
theorem topicSegments_five (s0 s1 dev act att : String) (h0 : '/' ∉ s0.data)
    (h1 : '/' ∉ s1.data) (h2 : '/' ∉ dev.data) (h3 : '/' ∉ act.data) (h4 : '/' ∉ att.data) :
    topicSegments ("/" ++ s0 ++ "/" ++ s1 ++ "/" ++ dev ++ "/" ++ act ++ "/" ++ att)
      = ["", s0, s1, dev, act, att] := by
  have hdata : ("/" ++ s0 ++ "/" ++ s1 ++ "/" ++ dev ++ "/" ++ act ++ "/" ++ att).data
      = [] ++ '/' :: (s0.data ++ '/' :: (s1.data ++ '/' :: (dev.data ++ '/' ::
          (act.data ++ '/' :: att.data)))) := by
    simp [String.data_append]
  have hnil : '/' ∉ ([] : List Char) := by simp
  simp only [topicSegments, hdata]
  rw [if_neg (by simp)]
  rw [splitSlash_segment [] _ hnil, splitSlash_segment _ _ h0, splitSlash_segment _ _ h1,
    splitSlash_segment _ _ h2, splitSlash_segment _ _ h3, splitSlash_last _ h4]
  rfl

/-- C8: on the topic `/k/x/dev1/configuration/commands` the handler does not
select the configuration flow: the tokens are looked for at indices 3 and 4,
where this topic has `dev1` and `configuration`, so the message is handled as a
single measure for device `dev1` and an attribute named `commands` (or, when
the first payload element cannot be converted to a string, the handler throws
before any flow is called). -/
theorem C8_configuration_topic_routes_to_singleMeasure (js : Builtins) (message : Buffer) :
    messageHandler js (fun _ => some bareDevice) "/k/x/dev1/configuration/commands" message
      = if ((parseMessage js message).head?.getD .undefined).convertsToString then
          Outcome.processed
            (Flow.singleMeasure (some "dev1") "commands" bareDevice (parseMessage js message))
        else Outcome.thrown .typeError := by
  have hflow : processMessageForDevice (topicSegments "/k/x/dev1/configuration/commands")
      (some "dev1") (some "commands") (parseMessage js message) bareDevice
      = if ((parseMessage js message).head?.getD .undefined).convertsToString then
          .ok (Flow.singleMeasure (some "dev1") "commands" bareDevice (parseMessage js message))
        else .error .typeError := rfl
  have hunfold : messageHandler js (fun _ => some bareDevice)
      "/k/x/dev1/configuration/commands" message
      = match processMessageForDevice (topicSegments "/k/x/dev1/configuration/commands")
          (some "dev1") (some "commands") (parseMessage js message) bareDevice with
        | .ok flow => Outcome.processed flow
        | .error e => Outcome.thrown e := rfl
  rw [hunfold, hflow]
  cases ((parseMessage js message).head?.getD .undefined).convertsToString <;> rfl

/-- C9: when the segments of the topic at indices 3 and 4 are `configuration`
and `commands`, `processMessageForDevice` selects the configuration request,
whatever the device id, the attribute segment and the decoded payload; so does
`messageHandler` for every topic with these segments, every message body and
every device the registry resolves. -/
theorem C9_configuration_by_position (topicInformation : List String)
    (h3 : topicInformation.get? 3 = some "configuration")
    (h4 : topicInformation.get? 4 = some "commands") :
    (∀ deviceId attrName parsedMessage device,
      processMessageForDevice topicInformation deviceId attrName parsedMessage device
        = .ok (Flow.manageConfigurationRequest deviceId device parsedMessage)) ∧
    (∀ js retrieveDevice topic message device, topicSegments topic = topicInformation →
      retrieveDevice (some "configuration") = some device →
      messageHandler js retrieveDevice topic message
        = Outcome.processed (Flow.manageConfigurationRequest (some "configuration") device
            (parseMessage js message))) := by
  refine ⟨?_, ?_⟩
  · intro deviceId attrName parsedMessage device
    unfold processMessageForDevice
    rw [if_pos ⟨h3, h4⟩]
  · intro js retrieveDevice topic message device htopic hdev
    simp only [messageHandler, htopic, h3, hdev]
    unfold processMessageForDevice
    rw [if_pos ⟨h3, h4⟩]

/-- C9 on the topic `/k/x/configuration/commands/temp`, which also carries an
attribute segment at index 5. -/
theorem C9_configuration_by_position_witness :
    messageHandler sampleBuiltins (fun _ => some bareDevice)
        "/k/x/configuration/commands/temp" message21
      = Outcome.processed
          (Flow.manageConfigurationRequest (some "configuration") bareDevice [.num 21]) :=
  (C9_configuration_by_position (topicSegments "/k/x/configuration/commands/temp") rfl rfl).2
    sampleBuiltins (fun _ => some bareDevice) "/k/x/configuration/commands/temp" message21
    bareDevice rfl rfl

/-- Routing of a topic `/s0/s1/deviceId/action/attribute` whose attribute
segment is not empty and whose segments at indices 3 and 4 are not
`configuration` and `commands`: the device id is taken from index 3 and the
attribute from index 5; the message is handled as a single measure when the
first element of the decoded payload converts to a string, and the handler
throws otherwise. -/
theorem messageHandler_attribute_topic (js : Builtins)
    (retrieveDevice : Option String → Option Device) (s0 s1 dev act att : String)
    (message : Buffer) (device : Device)
    (h0 : '/' ∉ s0.data) (h1 : '/' ∉ s1.data) (h2 : '/' ∉ dev.data) (h3 : '/' ∉ act.data)
    (h4 : '/' ∉ att.data) (hatt : att ≠ "")
    (hconf : ¬ (dev = "configuration" ∧ act = "commands"))
    (hdev : retrieveDevice (some dev) = some device) :
    (topicSegments ("/" ++ s0 ++ "/" ++ s1 ++ "/" ++ dev ++ "/" ++ act ++ "/" ++ att)).get? 3
        = some dev ∧
    (topicSegments ("/" ++ s0 ++ "/" ++ s1 ++ "/" ++ dev ++ "/" ++ act ++ "/" ++ att)).get? 5
        = some att ∧
    messageHandler js retrieveDevice
        ("/" ++ s0 ++ "/" ++ s1 ++ "/" ++ dev ++ "/" ++ act ++ "/" ++ att) message
      = if ((parseMessage js message).head?.getD .undefined).convertsToString then
          Outcome.processed
            (Flow.singleMeasure (some dev) att device (parseMessage js message))
        else Outcome.thrown .typeError := by
  have hseg := topicSegments_five s0 s1 dev act att h0 h1 h2 h3 h4
  refine ⟨by simp [hseg], by simp [hseg], ?_⟩
  simp only [messageHandler, hseg]
  have h3' : (["", s0, s1, dev, act, att] : List String).get? 3 = some dev := rfl
  have h4' : (["", s0, s1, dev, act, att] : List String).get? 4 = some act := rfl
  have h5' : (["", s0, s1, dev, act, att] : List String).get? 5 = some att := rfl
  have hcond : ¬ ((["", s0, s1, dev, act, att] : List String).get? 3 = some "configuration" ∧
      (["", s0, s1, dev, act, att] : List String).get? 4 = some "commands") := by
    rw [h3', h4']
    intro h
    exact hconf ⟨Option.some.inj h.1, Option.some.inj h.2⟩
  rw [h3', hdev]
  simp only [processMessageForDevice, if_neg hcond, h5', Option.filter, hatt, ne_eq,
    not_false_eq_true, decide_True, ite_true]
  cases ((parseMessage js message).head?.getD .undefined).convertsToString <;> rfl

/-- The specification example `/k/x/dev1/attrs/temp` with the body `21`:
single measure, device id `dev1`, attribute `temp`. -/
theorem messageHandler_attribute_topic_example :
    messageHandler sampleBuiltins (fun _ => some bareDevice) "/k/x/dev1/attrs/temp" message21
      = Outcome.processed (Flow.singleMeasure (some "dev1") "temp" bareDevice [.num 21]) :=
  (messageHandler_attribute_topic sampleBuiltins (fun _ => some bareDevice) "k" "x" "dev1"
    "attrs" "temp" message21 bareDevice (by decide) (by decide) (by decide) (by decide)
    (by decide) (by decide) (by decide) rfl).2.2.trans rfl

/-- C10: on the specification topic `/k/x/dev1/attrs/temp` the body
`{"toString":1}` decodes to one record whose own property `toString` hides the
inherited method; the template literal that prints `parsedMessage[0]` throws a
`TypeError` and no flow is selected, whereas the same topic with the body `21`
selects the single measure for device `dev1` and attribute `temp`. -/
theorem C10_single_measure_throws_before_dispatch :
    parseMessage sampleBuiltins messageToString = [.obj [("toString", .num 1)]] ∧
    messageHandler sampleBuiltins (fun _ => some bareDevice) "/k/x/dev1/attrs/temp"
        messageToString = Outcome.thrown .typeError ∧
    messageHandler sampleBuiltins (fun _ => some bareDevice) "/k/x/dev1/attrs/temp" message21
      = Outcome.processed (Flow.singleMeasure (some "dev1") "temp" bareDevice [.num 21]) :=
  ⟨rfl, rfl, rfl⟩

/-! ## Hint and default type -/

/-- C19 (amended): for a name that matches no active entry and is not the
timestamp attribute, `guessType` returns the hint when the hint is truthy, and
the default attribute type when the hint is missing or falsy (`null`,
`undefined`, the empty string, `0`, `false`). -/
theorem C19_hint_or_default (c : Constants) (attrName : String) (device : Device)
    (hint : JVal)
    (hnone : ∀ acts, device.active = some acts → ∀ a ∈ acts, a.name ≠ attrName)
    (htime : attrName ≠ c.TIMESTAMP_ATTRIBUTE) :
    guessType c attrName device hint
      = if hint.truthy then hint else .str c.DEFAULT_ATTRIBUTE_TYPE := by
  cases hact : device.active with
  | none => simp [guessType, hact, htime]
  | some acts => simp [guessType, hact, findActive_none _ acts (hnone acts hact), htime]

/-- C19 on a device without active attributes: the hint `Number` is returned,
and without a hint the default type. -/
theorem C19_hint_or_default_witness :
    guessType sampleConstants "temp" bareDevice (.str "Number") = .str "Number" ∧
    guessType sampleConstants "temp" bareDevice .null = .str "string" :=
  ⟨(C19_hint_or_default sampleConstants "temp" bareDevice (.str "Number")
      (fun _ h => nomatch h) (by decide)).trans rfl,
    (C19_hint_or_default sampleConstants "temp" bareDevice .null
      (fun _ h => nomatch h) (by decide)).trans rfl⟩

/-- C19 as stated fails for the hint `""`: it was supplied by the caller, yet
the default type is returned, not the hint. -/
theorem C19_counterexample_empty_hint :
    guessType sampleConstants "temp" bareDevice (.str "") = .str "string" ∧
    guessType sampleConstants "temp" bareDevice (.str "") ≠ .str "" :=
  ⟨rfl, fun h => by
    have h' : JVal.str "string" = JVal.str "" := h
    exact absurd (JVal.str.inj h') (by decide)⟩

/-! ## Single measure -/

/-- C14: `singleMeasure` throws nothing and issues exactly one update call, for
`deviceId` and `device.type`, whose attribute list is the single record named
after the attribute, typed by `guessType` without a hint and valued with the
first element of the decoded payload; the completion of that call closes the
transaction exactly once, whatever the outcome of the call. -/
theorem C14_single_measure (c : Constants) (backend : Nat → UpdateCall → JVal)
    (deviceId : Option String) (attrName : String) (device : Device)
    (parsedMessage : List JVal) :
    (singleMeasure c backend deviceId attrName device parsedMessage).thrown = none ∧
    updatesOf (singleMeasure c backend deviceId attrName device parsedMessage).events
      = [⟨deviceId, device.type, "",
          [.record ⟨attrName, guessType c attrName device .null,
            parsedMessage.head?.getD .undefined, .undefined⟩], device⟩] ∧
    closesOf (singleMeasure c backend deviceId attrName device parsedMessage).events = 1 ∧
    ∀ error, closesOf (singleMeasureCallback error) = 1 := by
  have hcb : ∀ error, closesOf (singleMeasureCallback error) = 1 ∧
      updatesOf (singleMeasureCallback error) = [] := by
    intro error
    cases h : error.truthy <;> simp [singleMeasureCallback, h, closesOf, updatesOf]
  refine ⟨rfl, ?_, ?_, fun error => (hcb error).1⟩
  · simp only [singleMeasure, updatesOf, List.filterMap_cons]
    exact congrArg _ (hcb _).2
  · simp only [singleMeasure, closesOf, List.filter_cons]
    exact (hcb _).1

/-- C14 on the payload `[21]` for attribute `temp`, with a backend that fails. -/
theorem C14_single_measure_witness :
    updatesOf (singleMeasure sampleConstants (fun _ _ => .str "down") (some "dev1") "temp"
        bareDevice [.num 21]).events
      = [⟨some "dev1", .str "Thing", "",
          [.record ⟨"temp", .str "string", .num 21, .undefined⟩], bareDevice⟩] ∧
    closesOf (singleMeasure sampleConstants (fun _ _ => .str "down") (some "dev1") "temp"
        bareDevice [.num 21]).events = 1 :=
  ⟨(C14_single_measure sampleConstants (fun _ _ => .str "down") (some "dev1") "temp"
      bareDevice [.num 21]).2.1,
    (C14_single_measure sampleConstants (fun _ _ => .str "down") (some "dev1") "temp"
      bareDevice [.num 21]).2.2.1⟩

/-! ## Topic normalisation -/

theorem topicSegments_eq_split_normalizeTopic (topic : String) :
    topicSegments topic = (splitSlash (normalizeTopic topic).data).map String.mk := by
  by_cases h : topic.data.head? ≠ some '/'
  · simp only [topicSegments, normalizeTopic, if_pos h, String.data_append]
    rfl
  · simp only [topicSegments, normalizeTopic, if_neg h]

theorem normalizeTopic_head (topic : String) :
    (normalizeTopic topic).data.head? = some '/' := by
  by_cases h : topic.data.head? ≠ some '/'
  · simp only [normalizeTopic, if_pos h, String.data_append]
    rfl
  · simp only [normalizeTopic, if_neg h]
    exact not_not.mp h

/-- C18: a topic that does not begin with `/` gives the same segments, the same
device id and attribute segments, and the same outcome of `messageHandler`, as
`/` followed by that topic; a topic that begins with `/` is left unchanged by
the normalisation, and normalising twice is normalising once. -/
theorem C18_topic_normalisation (js : Builtins)
    (retrieveDevice : Option String → Option Device) (topic : String) (message : Buffer) :
    (topic.data.head? ≠ some '/' →
      normalizeTopic topic = "/" ++ topic ∧
      topicSegments topic = topicSegments ("/" ++ topic) ∧
      (topicSegments topic).get? 3 = (topicSegments ("/" ++ topic)).get? 3 ∧
      (topicSegments topic).get? 5 = (topicSegments ("/" ++ topic)).get? 5 ∧
      messageHandler js retrieveDevice topic message
        = messageHandler js retrieveDevice ("/" ++ topic) message) ∧
    (topic.data.head? = some '/' → normalizeTopic topic = topic) ∧
    normalizeTopic (normalizeTopic topic) = normalizeTopic topic := by
  have hidem : ∀ t : String, t.data.head? = some '/' → normalizeTopic t = t := by
    intro t ht
    simp [normalizeTopic, ht]
  refine ⟨?_, hidem topic, hidem _ (normalizeTopic_head topic)⟩
  intro h
  have hnorm : normalizeTopic topic = "/" ++ topic := by simp only [normalizeTopic, if_pos h]
  have hseg : topicSegments topic = topicSegments ("/" ++ topic) := by
    rw [topicSegments_eq_split_normalizeTopic topic,
      topicSegments_eq_split_normalizeTopic ("/" ++ topic), hnorm,
      hidem ("/" ++ topic) (by simp only [String.data_append]; rfl)]
  refine ⟨hnorm, hseg, by rw [hseg], by rw [hseg], ?_⟩
  simp only [messageHandler, hseg]

/-- C18 on the topic `k/x/dev1/attrs/temp`, written without the leading `/`. -/
theorem C18_topic_normalisation_witness :
    topicSegments "k/x/dev1/attrs/temp" = ["", "k", "x", "dev1", "attrs", "temp"] ∧
    messageHandler sampleBuiltins (fun _ => some bareDevice) "k/x/dev1/attrs/temp" message21
      = messageHandler sampleBuiltins (fun _ => some bareDevice)
          ("/" ++ "k/x/dev1/attrs/temp") message21 :=
  ⟨((C18_topic_normalisation sampleBuiltins (fun _ => some bareDevice)
      "k/x/dev1/attrs/temp" message21).1 (by decide)).2.1.trans rfl,
    ((C18_topic_normalisation sampleBuiltins (fun _ => some bareDevice)
      "k/x/dev1/attrs/temp" message21).1 (by decide)).2.2.2.2⟩

/-! ## Dialect selection -/

theorem toLowerCase_eq_empty_iff (p : String) : toLowerCase p = "" ↔ p = "" := by
  constructor
  · intro h
    have hdata : (toLowerCase p).data = [] := by rw [h]
    simp only [toLowerCase, List.map_eq_nil_iff] at hdata
    exact String.ext hdata
  · intro h
    subst h
    rfl

theorem isContextDialect_congr (c : Constants) (p₁ p₂ : String)
    (h : toLowerCase p₁ = toLowerCase p₂) :
    isContextDialect c (some p₁) = isContextDialect c (some p₂) := by
  have hne : p₁ ≠ "" ↔ p₂ ≠ "" := by
    rw [ne_eq, ne_eq, ← toLowerCase_eq_empty_iff p₁, ← toLowerCase_eq_empty_iff p₂, h]
  simp only [isContextDialect, h]
  by_cases h₁ : p₁ ≠ ""
  · simp [h₁, hne.mp h₁]
  · have h₂ : ¬ p₂ ≠ "" := fun hh => h₁ (hne.mpr hh)
    simp [not_not.mp h₁, not_not.mp h₂]

/-- C17: `extractAttributes` sees the dialect only through its lower-cased
form (two dialect strings with the same lower-cased form give the same
result), and a dialect whose lower-cased form is neither dialect tag gives the
result of an absent dialect, which is the plain extraction. -/
theorem C17_dialect_selection (c : Constants) (device : Device) (current : JVal) :
    (∀ p₁ p₂ : String, toLowerCase p₁ = toLowerCase p₂ →
      extractAttributes c device current (some p₁)
        = extractAttributes c device current (some p₂)) ∧
    (∀ p : String, toLowerCase p ≠ c.PAYLOAD_NGSIv2 → toLowerCase p ≠ c.PAYLOAD_NGSILD →
      extractAttributes c device current (some p)
        = extractAttributes c device current none) ∧
    extractAttributes c device current none = plainLoop c device current current.ownKeys [] := by
  have hnone : extractAttributes c device current none
      = plainLoop c device current current.ownKeys [] := by
    simp [extractAttributes, isContextDialect]
  refine ⟨?_, ?_, hnone⟩
  · intro p₁ p₂ h
    simp only [extractAttributes, isContextDialect_congr c p₁ p₂ h, Option.getD_some, h]
  · intro p h₁ h₂
    have hd : isContextDialect c (some p) = false := by simp [isContextDialect, h₁, h₂]
    rw [hnone]
    simp [extractAttributes, hd]

/-- C17 on the specification entity: `NGSIv2` and `ngsiv2` extract alike, and
the unknown dialect `mqtt-json` extracts as no dialect at all. -/
theorem C17_dialect_selection_witness :
    extractAttributes sampleConstants bareDevice (.obj speedEntity) (some "NGSIv2")
      = extractAttributes sampleConstants bareDevice (.obj speedEntity) (some "ngsiv2") ∧
    extractAttributes sampleConstants bareDevice (.obj speedEntity) (some "mqtt-json")
      = extractAttributes sampleConstants bareDevice (.obj speedEntity) none :=
  ⟨(C17_dialect_selection sampleConstants bareDevice (.obj speedEntity)).1
      "NGSIv2" "ngsiv2" (by decide),
    (C17_dialect_selection sampleConstants bareDevice (.obj speedEntity)).2.1
      "mqtt-json" (by decide) (by decide)⟩

/-! ## Multi-measure routing -/

theorem typeofObject_iff (x : JVal) (hnull : x ≠ .null) :
    typeofObject x = true ↔ isStructured x := by
  cases x <;> simp [typeofObject, isStructured] at hnull ⊢

/-- C11 (amended): on a topic without attribute segment whose segments 3 and 4
are not `configuration` and `commands`, and for a decoded payload holding no
`null`, the multi-measure flow is selected exactly when every element of the
payload is an object or an array; this includes the empty payload, for which
the flow issues no update and reports nothing.  In every other case (some
element is a string, a number or a boolean) the message is reported as a format
error, and that branch issues no update. -/
theorem C11_multi_measure_or_format_error (topicInformation : List String)
    (deviceId attrName : Option String) (p : List JVal) (device : Device)
    (hconf : ¬ (topicInformation.get? 3 = some "configuration" ∧
      topicInformation.get? 4 = some "commands"))
    (hattr : attrName = none ∨ attrName = some "")
    (hnull : ∀ x ∈ p, x ≠ .null) :
    (processMessageForDevice topicInformation deviceId attrName p device
        = .ok (Flow.multipleMeasures deviceId device p) ↔ ∀ x ∈ p, isStructured x) ∧
    (¬ (∀ x ∈ p, isStructured x) →
      processMessageForDevice topicInformation deviceId attrName p device
        = .ok Flow.formatError) ∧
    (∀ c backend configure,
      updatesOf (Flow.run c backend configure Flow.formatError).events = [] ∧
      (Flow.run c backend configure Flow.formatError).events = [Event.logError] ∧
      (Flow.run c backend configure (Flow.multipleMeasures deviceId device [])).events = []) := by
  have hfilter : attrName.filter (fun a => a ≠ "") = none := by
    rcases hattr with h | h <;> subst h <;> rfl
  have hall : p.all typeofObject = true ↔ ∀ x ∈ p, isStructured x := by
    rw [List.all_eq_true]
    exact ⟨fun h x hx => (typeofObject_iff x (hnull x hx)).mp (h x hx),
      fun h x hx => (typeofObject_iff x (hnull x hx)).mpr (h x hx)⟩
  have hflow : processMessageForDevice topicInformation deviceId attrName p device
      = if p.all typeofObject then .ok (Flow.multipleMeasures deviceId device p)
        else .ok Flow.formatError := by
    simp only [processMessageForDevice, if_neg hconf, hfilter]
  refine ⟨?_, ?_, fun c backend configure => ⟨rfl, rfl, rfl⟩⟩
  · rw [hflow, ← hall]
    by_cases h : p.all typeofObject = true
    · simp [h]
    · rw [if_neg h]
      exact ⟨fun hh => Flow.noConfusion (Except.ok.inj hh), fun hh => absurd hh h⟩
  · intro h
    rw [hflow, if_neg (fun hh => h (hall.mp hh))]

/-- C11 on the topic `/k/x/dev1/attrs`: the payload `[{}]` is a multi-measure,
the hexadecimal fallback `["dead"]` a format error. -/
theorem C11_multi_measure_or_format_error_witness :
    processMessageForDevice (topicSegments "/k/x/dev1/attrs") (some "dev1") none
        [.obj []] bareDevice = .ok (Flow.multipleMeasures (some "dev1") bareDevice [.obj []]) ∧
    processMessageForDevice (topicSegments "/k/x/dev1/attrs") (some "dev1") none
        [.str "dead"] bareDevice = .ok Flow.formatError :=
  ⟨(C11_multi_measure_or_format_error (topicSegments "/k/x/dev1/attrs") (some "dev1") none
      [.obj []] bareDevice (by decide) (Or.inl rfl)
      (by
        intro x hx
        simp only [List.mem_singleton] at hx
        subst hx
        exact fun h => JVal.noConfusion h)).1.mpr
      (by
        intro x hx
        simp only [List.mem_singleton] at hx
        subst hx
        exact True.intro),
    (C11_multi_measure_or_format_error (topicSegments "/k/x/dev1/attrs") (some "dev1") none
      [.str "dead"] bareDevice (by decide) (Or.inl rfl)
      (by
        intro x hx
        simp only [List.mem_singleton] at hx
        subst hx
        exact fun h => JVal.noConfusion h)).2.1
      (fun h => h (.str "dead") (List.mem_singleton.mpr rfl))⟩

/-- C11 as stated fails on the topic `/k/x/dev1/attrs` for the empty payload
and for the payload `[null]`: both select the multi-measure flow, not the
format error; and for `[null]` on a device of the plain dialect that flow does
issue an update, carrying one empty list of records. -/
theorem C11_counterexample_empty_and_null :
    processMessageForDevice (topicSegments "/k/x/dev1/attrs") (some "dev1") none
        [] bareDevice = .ok (Flow.multipleMeasures (some "dev1") bareDevice []) ∧
    processMessageForDevice (topicSegments "/k/x/dev1/attrs") (some "dev1") none
        [.null] bareDevice = .ok (Flow.multipleMeasures (some "dev1") bareDevice [.null]) ∧
    updatesOf (Flow.run sampleConstants (fun _ _ => .null) (fun _ => .null)
        (Flow.multipleMeasures (some "dev1") bareDevice [.null])).events
      = [⟨some "dev1", .str "Thing", "", [Measure.group []], bareDevice⟩] :=
  ⟨rfl, rfl, rfl⟩

/-! ## Multiple measures -/

theorem updatesOf_append (xs ys : List Event) :
    updatesOf (xs ++ ys) = updatesOf xs ++ updatesOf ys := by
  simp [updatesOf, List.filterMap_append]

theorem closesOf_append (xs ys : List Event) :
    closesOf (xs ++ ys) = closesOf xs + closesOf ys := by
  simp [closesOf, List.filter_append]

theorem multipleMeasuresCallback_facts (error : JVal) :
    updatesOf (multipleMeasuresCallback error) = [] ∧
      closesOf (multipleMeasuresCallback error) = 1 := by
  cases h : error.truthy <;> simp [multipleMeasuresCallback, h, closesOf, updatesOf]

theorem multipleMeasuresLoop_ok (c : Constants) (backend : Nat → UpdateCall → JVal)
    (deviceId : Option String) (device : Device) (messageObj : List JVal)
    (valuess : List (List Item))
    (h : List.Forall₂
      (fun measure values => extractAttributes c device measure device.payloadType = .ok values)
      messageObj valuess)
    (j : Nat) (events : List Event) :
    (multipleMeasuresLoop c backend deviceId device j messageObj events).thrown = none ∧
    updatesOf (multipleMeasuresLoop c backend deviceId device j messageObj events).events
      = updatesOf events ++ valuess.map (measureCall deviceId device) ∧
    closesOf (multipleMeasuresLoop c backend deviceId device j messageObj events).events
      = closesOf events + messageObj.length := by
  induction h generalizing j events with
  | nil => simp [multipleMeasuresLoop]
  | @cons measure values rest valuesRest hhead _ ih =>
    simp only [multipleMeasuresLoop, hhead]
    obtain ⟨h1, h2, h3⟩ := ih (j + 1)
      (events ++ Event.update (measureCall deviceId device values) ::
        multipleMeasuresCallback (backend j (measureCall deviceId device values)))
    have hcb := multipleMeasuresCallback_facts (backend j (measureCall deviceId device values))
    refine ⟨h1, ?_, ?_⟩
    · rw [show (⟨deviceId, device.type, "", attributesArray values, device⟩ : UpdateCall)
          = measureCall deviceId device values from rfl, h2, updatesOf_append]
      have hone : updatesOf (Event.update (measureCall deviceId device values) ::
          multipleMeasuresCallback (backend j (measureCall deviceId device values)))
          = [measureCall deviceId device values] := by
        show _ :: updatesOf _ = _
        rw [hcb.1]
      rw [hone]
      simp
    · rw [show (⟨deviceId, device.type, "", attributesArray values, device⟩ : UpdateCall)
          = measureCall deviceId device values from rfl, h3, closesOf_append]
      have hone : closesOf (Event.update (measureCall deviceId device values) ::
          multipleMeasuresCallback (backend j (measureCall deviceId device values))) = 1 := by
        show closesOf _ = 1
        exact hcb.2
      rw [hone]
      simp only [List.length_cons]
      omega

theorem forall₂_of_forall_exists {α β : Type} (R : α → β → Prop) (xs : List α)
    (h : ∀ x ∈ xs, ∃ y, R x y) : ∃ ys, List.Forall₂ R xs ys := by
  induction xs with
  | nil => exact ⟨[], List.Forall₂.nil⟩
  | cons x xs ih =>
    obtain ⟨y, hy⟩ := h x (List.mem_cons_self _ _)
    obtain ⟨ys, hys⟩ := ih (fun x' hx' => h x' (List.mem_cons_of_mem _ hx'))
    exact ⟨y :: ys, List.Forall₂.cons hy hys⟩

/-- C12 (amended): when every element of the decoded payload extracts without
an exception, `multipleMeasures` invokes the update once per payload element,
in order, and the call for an element carries the whole normalised
list-of-lists of that element; so an element holding `n >= 2` entities gives
one update call carrying `n` inner lists. -/
theorem C12_one_update_per_payload_element (c : Constants)
    (backend : Nat → UpdateCall → JVal) (deviceId : Option String) (device : Device)
    (messageObj : List JVal) (valuess : List (List Item))
    (h : List.Forall₂
      (fun measure values => extractAttributes c device measure device.payloadType = .ok values)
      messageObj valuess) :
    (multipleMeasures c backend deviceId device messageObj).thrown = none ∧
    updatesOf (multipleMeasures c backend deviceId device messageObj).events
      = valuess.map fun values =>
          (⟨deviceId, device.type, "", attributesArray values, device⟩ : UpdateCall) := by
  obtain ⟨h1, h2, _⟩ :=
    multipleMeasuresLoop_ok c backend deviceId device messageObj valuess h 0 []
  exact ⟨h1, by simpa [multipleMeasures, updatesOf, measureCall] using h2⟩

/-- C12 on the plain payload `[{"a":1}, {"b":2}]`: two update calls, each
carrying one list of one record. -/
theorem C12_one_update_per_payload_element_witness :
    updatesOf (multipleMeasures sampleConstants (fun _ _ => .null) (some "dev1") bareDevice
        [.obj [("a", .num 1)], .obj [("b", .num 2)]]).events
      = [⟨some "dev1", .str "Thing", "",
            [.group [.record ⟨"a", .str "string", .num 1, .undefined⟩]], bareDevice⟩,
          ⟨some "dev1", .str "Thing", "",
            [.group [.record ⟨"b", .str "string", .num 2, .undefined⟩]], bareDevice⟩] :=
  (C12_one_update_per_payload_element sampleConstants (fun _ _ => .null) (some "dev1")
    bareDevice [.obj [("a", .num 1)], .obj [("b", .num 2)]]
    [[.record ⟨"a", .str "string", .num 1, .undefined⟩],
      [.record ⟨"b", .str "string", .num 2, .undefined⟩]]
    (List.Forall₂.cons rfl (List.Forall₂.cons rfl List.Forall₂.nil))).2.trans rfl

/-- C12 as stated fails on a payload whose single element is an envelope of two
entities, on an NGSIv2 device: there is one update call, not two, and it
carries both inner lists. -/
theorem C12_counterexample_two_entities_one_call :
    updatesOf (multipleMeasures sampleConstants (fun _ _ => .null) (some "dev1") ngsiv2Device
        [.obj twoEntities]).events
      = [⟨some "dev1", .str "Thing", "",
          [.group [.record ⟨"id", .str "string", .str "e1", .undefined⟩,
              .record ⟨"temp", .str "Number", .num 21, .undefined⟩],
            .group [.record ⟨"id", .str "string", .str "e2", .undefined⟩,
              .record ⟨"temp", .str "Number", .num 22, .undefined⟩]], ngsiv2Device⟩] ∧
    (updatesOf (multipleMeasures sampleConstants (fun _ _ => .null) (some "dev1")
        ngsiv2Device [.obj twoEntities]).events).length = 1 :=
  ⟨rfl, rfl⟩

/-- C13 (amended): when every element of the decoded payload extracts without
an exception, then for every assignment of outcomes to the update calls
`multipleMeasures` throws nothing, dispatches one update per element (the same
calls whatever the outcomes) and closes as many transactions as there are
elements, each completion closing exactly one. -/
theorem C13_failure_isolation (c : Constants) (deviceId : Option String) (device : Device)
    (messageObj : List JVal)
    (h : ∀ measure ∈ messageObj,
      ∃ values, extractAttributes c device measure device.payloadType = .ok values) :
    (∀ backend : Nat → UpdateCall → JVal,
      (multipleMeasures c backend deviceId device messageObj).thrown = none ∧
      (updatesOf (multipleMeasures c backend deviceId device messageObj).events).length
        = messageObj.length ∧
      closesOf (multipleMeasures c backend deviceId device messageObj).events
        = messageObj.length) ∧
    (∀ backend backend' : Nat → UpdateCall → JVal,
      updatesOf (multipleMeasures c backend deviceId device messageObj).events
        = updatesOf (multipleMeasures c backend' deviceId device messageObj).events) ∧
    (∀ error, closesOf (multipleMeasuresCallback error) = 1) := by
  obtain ⟨valuess, hall⟩ := forall₂_of_forall_exists _ messageObj h
  have hlen : valuess.length = messageObj.length := hall.length_eq.symm
  have hrun := fun backend =>
    multipleMeasuresLoop_ok c backend deviceId device messageObj valuess hall 0 []
  refine ⟨fun backend => ?_, fun backend backend' => ?_,
    fun error => (multipleMeasuresCallback_facts error).2⟩
  · obtain ⟨h1, h2, h3⟩ := hrun backend
    refine ⟨h1, ?_, ?_⟩
    · simp only [multipleMeasures]
      rw [h2]
      simp [updatesOf, hlen]
    · simp only [multipleMeasures]
      rw [h3]
      simp [closesOf]
  · simp only [multipleMeasures]
    rw [(hrun backend).2.1, (hrun backend').2.1]

/-- C13 on a batch of three plain records whose second update fails: three
updates are dispatched and three transactions closed. -/
theorem C13_failure_isolation_witness :
    (updatesOf (multipleMeasures sampleConstants secondFails (some "dev1") bareDevice
        [.obj [("a", .num 1)], .obj [("b", .num 2)], .obj [("c", .num 3)]]).events).length = 3 ∧
    closesOf (multipleMeasures sampleConstants secondFails (some "dev1") bareDevice
        [.obj [("a", .num 1)], .obj [("b", .num 2)], .obj [("c", .num 3)]]).events = 3 :=
  have h := (C13_failure_isolation sampleConstants (some "dev1") bareDevice
    [.obj [("a", .num 1)], .obj [("b", .num 2)], .obj [("c", .num 3)]]
    (by
      intro measure hm
      simp only [List.mem_cons, List.mem_singleton, List.not_mem_nil, or_false] at hm
      rcases hm with h | h | h <;> subst h <;> exact ⟨_, rfl⟩)).1 secondFails
  ⟨h.2.1, h.2.2⟩

/-- C13 as stated fails on the batch `[{temp:null}, {temp:{value:1}}]` of an
NGSIv2 device: extracting the first element throws, the exception leaves
`multipleMeasures`, and no element is dispatched. -/
theorem C13_counterexample_extraction_throws :
    (multipleMeasures sampleConstants (fun _ _ => .null) (some "dev1") ngsiv2Device
        [.obj [("temp", .null)], .obj [("temp", .obj [("value", .num 1)])]]).thrown
      = some .typeError ∧
    updatesOf (multipleMeasures sampleConstants (fun _ _ => .null) (some "dev1") ngsiv2Device
        [.obj [("temp", .null)], .obj [("temp", .obj [("value", .num 1)])]]).events = [] :=
  ⟨rfl, rfl⟩

/-! ## Record well-formedness -/

/-- C16: under NGSI-LD the key `speed` holding `{value: 10}`, an object that
declares no type, gives a record with a name only: neither a type nor a value
is set; under NGSIv2 the same entity gets the default type.  Likewise `temp`,
which the device declares as `Number`, is emitted untyped under NGSI-LD and as
`Number` under NGSIv2. -/
theorem C16_contextLD_record_without_type :
    extractAttributes sampleConstants bareDevice
        (.obj [("speed", .obj [("value", .num 10)])]) (some "ngsild")
      = .ok [Item.record ⟨"speed", .undefined, .undefined, .undefined⟩] ∧
    extractAttributes sampleConstants bareDevice
        (.obj [("speed", .obj [("value", .num 10)])]) (some "ngsiv2")
      = .ok [Item.record ⟨"speed", .str "string", .num 10, .undefined⟩] ∧
    extractAttributes sampleConstants tempDevice
        (.obj [("temp", .obj [("value", .num 21)])]) (some "ngsild")
      = .ok [Item.record ⟨"temp", .undefined, .undefined, .undefined⟩] ∧
    extractAttributes sampleConstants tempDevice
        (.obj [("temp", .obj [("value", .num 21)])]) (some "ngsiv2")
      = .ok [Item.record ⟨"temp", .str "Number", .num 21, .undefined⟩] :=
  ⟨rfl, rfl, rfl, rfl⟩

/-! ## No value is lost -/

theorem forall₂_map_of_forall {α β : Type} (P : α → β → Prop) (f : α → β) (xs : List α)
    (h : ∀ x ∈ xs, P x (f x)) : List.Forall₂ P xs (xs.map f) := by
  induction xs with
  | nil => exact List.Forall₂.nil
  | cons x xs ih =>
    exact List.Forall₂.cons (h x (List.mem_cons_self _ _))
      (ih (fun x' hx' => h x' (List.mem_cons_of_mem _ hx')))

/-- C15 (amended): take an entity object without an own key `hasOwnProperty`
which, under a context dialect, is no envelope and whose keys other than `id`
and `type` (and, under NGSI-LD, the spellings of `@context`) hold objects whose
`type` is a string or falsy.  Under every dialect extraction returns one
unnested record per own key, in key order, named after the key; the value of
the record is `entity[k]` under the plain dialect, `entity[k].value` under
NGSIv2 for a key other than `id` and `type`, and `entity[k].value` under
NGSI-LD for a key other than `id`, `type` and the spellings of `@context` whose
object declares the type `property` or `geoproperty`. -/
theorem C15_names_and_values_carried (c : Constants) (device : Device)
    (kvs : List (String × JVal)) (payloadType : Option String)
    (hsh : "hasOwnProperty" ∉ kvs.map Prod.fst)
    (hctx : ∀ p, payloadType = some p → isContextDialect c payloadType = true →
      plainlyTyped c p kvs) :
    ∃ rs, extractAttributes c device (.obj kvs) payloadType = .ok (rs.map Item.record) ∧
      List.Forall₂ (carriesValue c payloadType kvs) (kvs.map Prod.fst) rs := by
  by_cases hd : isContextDialect c payloadType = true
  · cases hpt : payloadType with
    | none => rw [hpt] at hd; simp [isContextDialect] at hd
    | some p =>
      subst hpt
      obtain ⟨henv, hfields⟩ := hctx p rfl hd
      have hp : p ≠ "" := by
        intro h
        simp [isContextDialect, h] at hd
      have hnotplain : isContextDialect c (some p) = false → False := by
        intro h
        rw [hd] at h
        cases h
      by_cases hv2 : toLowerCase p = c.PAYLOAD_NGSIv2
      · have hobj : ∀ k ∈ kvs.map Prod.fst, k ∉ ["id", "type"] →
            ∃ fs, JVal.lookup k kvs = .obj fs := by
          intro k hk hid
          rcases hfields k hk hid with ⟨fs, hfs, _⟩ | ⟨_, hne⟩
          · exact ⟨fs, hfs⟩
          · exact absurd hv2 hne
        refine ⟨(kvs.map Prod.fst).map (contextV2Record c device (.obj kvs)), ?_, ?_⟩
        · rw [extractAttributes_single c device kvs p hd hsh henv,
            entityLoop_ngsiv2 c device (toLowerCase p) (.obj kvs) hv2 (kvs.map Prod.fst)
              (fun k hk => hasOwnProperty_ownKeys (.obj kvs) hsh k hk) hobj []]
          simp [Except.map]
        · apply forall₂_map_of_forall
          intro k _
          refine ⟨?_, fun h => (hnotplain h).elim, ?_, ?_⟩
          · by_cases hid : k ∈ ["id", "type"] <;> simp [contextV2Record, hid]
          · intro p' _ _ _ hid
            simp only [contextV2Record, if_neg hid]
            rfl
          · intro p' hp' _ hne
            cases hp'
            exact absurd hv2 hne
      · have hld : toLowerCase p = c.PAYLOAD_NGSILD := by
          simp [isContextDialect, hp, hv2] at hd
          exact hd
        have hsafe : ∀ k ∈ kvs.map Prod.fst, k ∉ ["id", "type"] → toLowerCase k ≠ "@context" →
            ∃ fs, JVal.lookup k kvs = .obj fs ∧ usableType (JVal.lookup "type" fs) := by
          intro k hk hid hnc
          rcases hfields k hk hid with h | ⟨hc, _⟩
          · exact h
          · exact absurd hc hnc
        obtain ⟨rs, hrs, hall⟩ := entityLoop_ngsild c device (toLowerCase p) kvs hld hv2
          (kvs.map Prod.fst) (fun k hk => hasOwnProperty_ownKeys (.obj kvs) hsh k hk) hsafe []
        refine ⟨rs, ?_, ?_⟩
        · rw [extractAttributes_single c device kvs p hd hsh henv, hrs]
          simp [Except.map]
        · refine hall.imp ?_
          intro k r hkr
          refine ⟨hkr.1, fun h => (hnotplain h).elim, ?_, ?_⟩
          · intro p' hp' _ heq
            cases hp'
            exact absurd heq hv2
          · intro p' _ _ _ _ hid hnc fs t hfs ht hprop
            have hne : t ≠ "" := by
              intro h
              subst h
              exact absurd hprop (by decide)
            exact (hkr.2 fs t hid hnc hfs ht hne).1 hprop
  · have hd' : isContextDialect c payloadType = false := by
      cases h : isContextDialect c payloadType
      · rfl
      · exact absurd h hd
    refine ⟨(kvs.map Prod.fst).map (plainRecord c device (.obj kvs)), ?_, ?_⟩
    · rw [extractAttributes_plain c device (.obj kvs) payloadType hd' hsh]
      simp [JVal.ownKeys, JVal.ownEntries]
    · apply forall₂_map_of_forall
      intro k _
      refine ⟨rfl, fun _ => rfl, ?_, ?_⟩
      · intro p hp hne hv2
        subst hp
        simp [isContextDialect, hne, hv2] at hd'
      · intro p hp hne _ hld
        subst hp
        simp [isContextDialect, hne, hld] at hd'

/-- C15 on the NGSI-LD example `{speed: {type: "Property", value: 10,
accuracy: 0.5}}`: one record, named `speed`, carrying the value `10`. -/
theorem C15_names_and_values_carried_witness :
    (∃ rs, extractAttributes sampleConstants bareDevice (.obj speedEntity) (some "ngsild")
        = .ok (rs.map Item.record) ∧
      List.Forall₂ (carriesValue sampleConstants (some "ngsild") speedEntity)
        (speedEntity.map Prod.fst) rs) ∧
    extractAttributes sampleConstants bareDevice (.obj speedEntity) (some "ngsild")
      = .ok [Item.record ⟨"speed", .str "Property", .num 10,
          .obj [("accuracy", .obj [("value", .num (1 / 2))])]⟩] :=
  ⟨C15_names_and_values_carried sampleConstants bareDevice speedEntity (some "ngsild")
    (by decide)
    (by
      intro p hp _
      cases hp
      refine ⟨by simp [isEnvelope, speedEntity], ?_⟩
      intro k hk _
      simp only [speedEntity, List.map_cons, List.map_nil, List.mem_singleton] at hk
      subst hk
      exact Or.inl ⟨_, rfl, fun _ => ⟨"Property", rfl⟩⟩), rfl⟩

/-- C15 as stated fails under NGSI-LD and NGSIv2.  A relationship `owner`
holding `{type: "Relationship", object: "urn:x", value: 7}` is emitted with the
value `"urn:x"`, not `7`.  The key `speed` holding `{value: 10}`, without a
type, is emitted without any value.  And under NGSIv2 the key `id` holding
`{value: 1}` is emitted with the whole object as its value. -/
theorem C15_counterexample_value_not_carried :
    (∃ r, extractAttributes sampleConstants bareDevice
        (.obj [("owner", .obj [("type", .str "Relationship"), ("object", .str "urn:x"),
          ("value", .num 7)])])
        (some "ngsild") = .ok [Item.record r] ∧
      r.value = .str "urn:x" ∧ r.value ≠ .num 7) ∧
    (∃ r, extractAttributes sampleConstants bareDevice
        (.obj [("speed", .obj [("value", .num 10)])]) (some "ngsild") = .ok [Item.record r] ∧
      r.value = .undefined ∧ r.value ≠ .num 10) ∧
    (∃ r, extractAttributes sampleConstants bareDevice
        (.obj [("id", .obj [("value", .num 1)])]) (some "ngsiv2") = .ok [Item.record r] ∧
      r.value = .obj [("value", .num 1)] ∧ r.value ≠ .num 1) :=
  ⟨⟨⟨"owner", .str "Relationship", .str "urn:x", .undefined⟩, rfl, rfl,
      fun h => JVal.noConfusion h⟩,
    ⟨⟨"speed", .undefined, .undefined, .undefined⟩, rfl, rfl, fun h => JVal.noConfusion h⟩,
    ⟨⟨"id", .str "string", .obj [("value", .num 1)], .undefined⟩, rfl, rfl,
      fun h => JVal.noConfusion h⟩⟩

/-! ## Shape normalisation -/

theorem attributesArray_records (rs : List AttributeRecord) :
    attributesArray (rs.map Item.record) = [innerList rs] := by
  cases rs <;> rfl

theorem attributesArray_groups (gs : List (List AttributeRecord)) (h : gs ≠ []) :
    attributesArray (gs.map Item.group) = gs.map innerList := by
  cases gs with
  | nil => exact absurd rfl h
  | cons g gs =>
    simp only [attributesArray, List.map_cons, List.map_map]
    refine congrArg₂ _ rfl ?_
    apply List.map_congr_left
    intro g' _
    rfl

theorem extractAttributes_shadowed (c : Constants) (device : Device)
    (kvs : List (String × JVal)) (payloadType : Option String)
    (hsh : "hasOwnProperty" ∈ kvs.map Prod.fst) :
    extractAttributes c device (.obj kvs) payloadType = .error .typeError := by
  by_cases hd : isContextDialect c payloadType = true
  · simp [extractAttributes, hd, JVal.hasOwnProperty, hsh, bind, Except.bind]
  · have hkeys : (JVal.obj kvs).ownKeys = kvs.map Prod.fst := rfl
    simp only [extractAttributes, hd, hkeys]
    cases hks : kvs.map Prod.fst with
    | nil => rw [hks] at hsh; cases hsh
    | cons k ks =>
      have hthrow : (JVal.obj kvs).hasOwnProperty k = .error .typeError := by
        simp [JVal.hasOwnProperty, hsh]
      simp [plainLoop, hthrow, bind, Except.bind]

/-- The extraction of a record that does not hide `hasOwnProperty`, in terms
of the entities it holds. -/
theorem extractAttributes_by_entities (c : Constants) (device : Device)
    (kvs : List (String × JVal)) (payloadType : Option String) (ents : List JVal)
    (hsh : "hasOwnProperty" ∉ kvs.map Prod.fst)
    (hents : holdsEntities c payloadType kvs ents) (hn : 1 ≤ ents.length)
    (values : List Item) :
    extractAttributes c device (.obj kvs) payloadType = .ok values ↔
      ∃ rss, List.Forall₂ (entityRecords c device payloadType) ents rss ∧
        values = (if 1 < ents.length then rss.map Item.group
          else (rss.headD []).map Item.record) := by
  by_cases hd : isContextDialect c payloadType = true
  · cases hpt : payloadType with
    | none => rw [hpt] at hd; simp [isContextDialect] at hd
    | some p =>
      subst hpt
      have hrec : ∀ e rs, entityRecords c device (some p) e rs ↔
          entityLoop c device (toLowerCase p) e e.ownKeys [] = .ok rs := by
        intro e rs
        simp [entityRecords, hd]
      have hsingle : ∀ e : JVal,
          (entitiesLoop c device (toLowerCase p) 1 [e] [] = .ok values ↔
            ∃ rss, List.Forall₂ (entityRecords c device (some p)) [e] rss ∧
              values = (rss.headD []).map Item.record) := by
        intro e
        rw [entitiesLoop_single]
        constructor
        · intro h
          cases hloop : entityLoop c device (toLowerCase p) e e.ownKeys [] with
          | error err => rw [hloop] at h; cases h
          | ok rs =>
            rw [hloop] at h
            simp only [Except.map, Except.ok.injEq] at h
            exact ⟨[rs], List.Forall₂.cons ((hrec e rs).mpr hloop) List.Forall₂.nil, h.symm⟩
        · rintro ⟨rss, hall, hvalues⟩
          cases hall with
          | cons h1 hrest =>
            cases hrest
            rw [(hrec _ _).mp h1, hvalues]
            rfl
      by_cases henv : isEnvelope kvs
      · have hents' : JVal.lookup "entities" kvs = .arr ents := by
          rcases hents with ⟨_, _, h⟩ | ⟨h, _⟩
          · exact h
          · exact absurd ⟨hd, henv⟩ h
        rw [extractAttributes_envelope c device kvs p hd hsh henv ents hents']
        by_cases hmany : 1 < ents.length
        · simp only [if_pos hmany]
          rw [entitiesLoop_many c device (toLowerCase p) ents.length hmany]
          constructor
          · rintro ⟨gs, hitems, hall⟩
            exact ⟨gs, hall.imp (fun e g h => (hrec e g).mpr h), by simpa using hitems⟩
          · rintro ⟨rss, hall, hitems⟩
            exact ⟨rss, by simpa using hitems, hall.imp (fun e g h => (hrec e g).mp h)⟩
        · simp only [if_neg hmany]
          have hone : ents.length = 1 := by omega
          obtain ⟨e, he⟩ := List.length_eq_one.mp hone
          subst he
          exact hsingle e
      · have hents' : ents = [.obj kvs] := by
          rcases hents with ⟨_, h, _⟩ | ⟨_, h⟩
          · exact absurd h henv
          · exact h
        subst hents'
        have hkeys : (JVal.obj kvs).ownKeys = kvs.map Prod.fst := rfl
        have hsh' : ¬ shadowsHasOwnProperty (.obj kvs) := hsh
        have hnot : ¬ 1 < [JVal.obj kvs].length := by simp
        simp only [if_neg hnot]
        rw [extractAttributes_single c device kvs p hd hsh' henv, ← hkeys,
          ← entitiesLoop_single]
        exact hsingle (.obj kvs)
  · have hd' : isContextDialect c payloadType = false := by
      cases h : isContextDialect c payloadType
      · rfl
      · exact absurd h hd
    have hents' : ents = [.obj kvs] := by
      rcases hents with ⟨h, _, _⟩ | ⟨_, h⟩
      · exact absurd h hd
      · exact h
    subst hents'
    have hsh' : ¬ shadowsHasOwnProperty (.obj kvs) := hsh
    have hplain := plainLoop_ok c device (.obj kvs) (JVal.obj kvs).ownKeys
      (fun k hk => hasOwnProperty_ownKeys (.obj kvs) hsh' k hk) []
    have hnot : ¬ 1 < [JVal.obj kvs].length := by simp
    simp only [if_neg hnot]
    rw [extractAttributes_plain c device (.obj kvs) payloadType hd' hsh']
    simp only [List.nil_append] at hplain
    constructor
    · intro h
      simp only [Except.ok.injEq] at h
      refine ⟨[(JVal.obj kvs).ownKeys.map (plainRecord c device (.obj kvs))],
        List.Forall₂.cons ?_ List.Forall₂.nil, ?_⟩
      · simp only [entityRecords, hd, if_false]
        rw [hplain]
        simp
      · rw [← h]
        simp
    · rintro ⟨rss, hall, hvalues⟩
      cases hall with
      | cons h1 hrest =>
        cases hrest
        simp only [entityRecords, hd, if_false] at h1
        rw [hplain] at h1
        simp only [Except.ok.injEq] at h1
        rw [hvalues, List.headD_cons, ← h1]

/-- C20: for a record holding `n >= 1` entities (the elements of `entities`
for an envelope under a context dialect, the record itself otherwise), whenever
`extractAttributes` returns, the list-of-lists that `multipleMeasures` builds
from the result has exactly `n` inner lists, the `i`-th being the records of
the `i`-th entity, unnested; and for a record without an own key
`hasOwnProperty` extraction does return as soon as every entity has its
records. -/
theorem C20_shape_normalisation (c : Constants) (device : Device)
    (kvs : List (String × JVal)) (payloadType : Option String) (ents : List JVal)
    (hents : holdsEntities c payloadType kvs ents) (hn : 1 ≤ ents.length) :
    (∀ values, extractAttributes c device (.obj kvs) payloadType = .ok values →
      ∃ rss, List.Forall₂ (entityRecords c device payloadType) ents rss ∧
        attributesArray values = rss.map innerList ∧
        (attributesArray values).length = ents.length) ∧
    ("hasOwnProperty" ∉ kvs.map Prod.fst →
      ∀ rss, List.Forall₂ (entityRecords c device payloadType) ents rss →
        ∃ values, extractAttributes c device (.obj kvs) payloadType = .ok values ∧
          attributesArray values = rss.map innerList) := by
  have hshape : ∀ rss : List (List AttributeRecord), rss.length = ents.length →
      attributesArray (if 1 < ents.length then rss.map Item.group
        else (rss.headD []).map Item.record) = rss.map innerList := by
    intro rss hlen
    by_cases hmany : 1 < ents.length
    · rw [if_pos hmany]
      apply attributesArray_groups
      intro h
      rw [h] at hlen
      simp at hlen
      omega
    · rw [if_neg hmany]
      have hone : rss.length = 1 := by omega
      obtain ⟨rs, hrs⟩ := List.length_eq_one.mp hone
      subst hrs
      exact attributesArray_records rs
  refine ⟨?_, ?_⟩
  · intro values hok
    by_cases hsh : "hasOwnProperty" ∈ kvs.map Prod.fst
    · rw [extractAttributes_shadowed c device kvs payloadType hsh] at hok
      cases hok
    · obtain ⟨rss, hall, hvalues⟩ :=
        (extractAttributes_by_entities c device kvs payloadType ents hsh hents hn values).mp hok
      have hlen : rss.length = ents.length := hall.length_eq.symm
      refine ⟨rss, hall, ?_, ?_⟩
      · rw [hvalues]
        exact hshape rss hlen
      · rw [hvalues, hshape rss hlen, List.length_map, hlen]
  · intro hsh rss hall
    have hlen : rss.length = ents.length := hall.length_eq.symm
    exact ⟨_, (extractAttributes_by_entities c device kvs payloadType ents hsh hents hn _).mpr
      ⟨rss, hall, rfl⟩, hshape rss hlen⟩

/-- C20 on the envelope of two entities under NGSIv2: the normalised result
has two inner lists, the records of `e1` and the records of `e2`. -/
theorem C20_shape_normalisation_witness :
    ∃ values, extractAttributes sampleConstants bareDevice (.obj twoEntities) (some "ngsiv2")
        = .ok values ∧
      attributesArray values
        = [innerList [⟨"id", .str "string", .str "e1", .undefined⟩,
              ⟨"temp", .str "Number", .num 21, .undefined⟩],
          innerList [⟨"id", .str "string", .str "e2", .undefined⟩,
              ⟨"temp", .str "Number", .num 22, .undefined⟩]] :=
  (C20_shape_normalisation sampleConstants bareDevice twoEntities (some "ngsiv2")
    [.obj [("id", .str "e1"), ("temp", .obj [("value", .num 21), ("type", .str "Number")])],
     .obj [("id", .str "e2"), ("temp", .obj [("value", .num 22), ("type", .str "Number")])]]
    (Or.inl ⟨rfl, ⟨by simp [twoEntities], by simp [twoEntities]⟩, rfl⟩) (by decide)).2
    (by decide)
    [[⟨"id", .str "string", .str "e1", .undefined⟩,
        ⟨"temp", .str "Number", .num 21, .undefined⟩],
      [⟨"id", .str "string", .str "e2", .undefined⟩,
        ⟨"temp", .str "Number", .num 22, .undefined⟩]]
    (List.Forall₂.cons (by simp only [entityRecords]; rfl)
      (List.Forall₂.cons (by simp only [entityRecords]; rfl) List.Forall₂.nil))

end CommonBindings
